import Mathlib

/-!
Statistics polling of the stress client (`bench/stress-client/python_interface.cc`).

A shallow embedding of `op_poll` and `op_reset`.

* C `int` values are modelled by `Int`.  The stored sample count is the fill level of a
  fixed-capacity array and is taken to fit an `int`.  The only arithmetic the code performs is
  `std::min`, `samples_we_have - 1`, `--samples_we_have` and `--samples_we_need`, always on
  values between `0` and the stored sample count (see `poll_loop_log`), so no operation can
  wrap.
* `xrandom` is declared outside this file.  A run is given the sequence of its results
  (`rng j` is what the `j`-th call returns); the probabilistic reading takes each call
  `xrandom(0, m)` to be uniform on the inclusive range `[0, m]`.
* `ticks_to_secs` is declared outside this file and produces a `float`; it is a parameter
  `ticks_to_secs : ticks_t → Secs` over an arbitrary type `Secs` of seconds values.
* In `op_poll` the four out-pointers are modelled by the caller memory behind them (`none` is a
  null pointer), each pointing at memory of its own.  `op_poll_ptr` is the same function with
  the two `int *` arguments given as pointers, which may point at the same cell or into the
  operation; `op_poll_ptr_caller` relates the two.
-/

namespace StressClient

/-- Tick counts (`ticks_t`): `op_poll` only copies them and hands them to `ticks_to_secs`. -/
abbrev ticks_t := Nat

/-- Modelled from the spec: the sample buffer type `reservoir_sample_t` is declared outside this
file; the spec calls it a fixed-capacity array of latency samples.  `samples` lists the stored
samples in array order. -/
structure reservoir_sample_t where
  samples : List ticks_t
deriving DecidableEq

/-- Modelled from the spec: `latency_samples.size()` is the number of stored samples. -/
def reservoir_sample_t.size (r : reservoir_sample_t) : Int :=
  (r.samples.length : Int)

/-- The array read `latency_samples.samples[i]` with an `int` subscript; `none` when the subscript
is outside the stored samples. -/
def reservoir_sample_t.read (r : reservoir_sample_t) (i : Int) : Option ticks_t :=
  if 0 ≤ i then r.samples[i.toNat]? else none

/-- Modelled from the spec: the record `query_stats_t` is declared outside this file; the spec
lists its contents as total query count, worst observed latency and the latency samples. -/
structure query_stats_t where
  queries : Int
  worst_latency : ticks_t
  latency_samples : reservoir_sample_t
deriving DecidableEq

/-- Modelled from the spec: the default constructor `query_stats_t()` is declared outside this
file; the spec calls its value the initial zero state. -/
def query_stats_t.init : query_stats_t :=
  { queries := 0, worst_latency := 0, latency_samples := { samples := [] } }

/-- The part of `op_t` the interface touches: the statistics and whether the statistics spinlock
is held. -/
structure op_t where
  stats : query_stats_t
  stats_spinlock : Bool
deriving DecidableEq

/-- Ways in which an execution of the loop can leave defined behaviour, and fuel exhaustion of
the model. -/
inductive fault_t where
  | uninitialized_read
  | index_out_of_range
  | out_of_fuel
deriving DecidableEq

/-- Record of one loop iteration: the two counters at the loop test, the result of `xrandom` when
the die was rolled, and the value of `take_this_sample`. -/
structure iteration_t where
  samples_we_have : Int
  samples_we_need : Int
  roll : Option Int
  take_this_sample : Bool
deriving DecidableEq

/-- Subscript of the stored sample an iteration looked at (`--samples_we_have`). -/
def iteration_t.stored_index (it : iteration_t) : Int :=
  it.samples_we_have - 1

/-- Subscript of the output slot an iteration wrote when it took its sample
(`--samples_we_need`). -/
def iteration_t.output_index (it : iteration_t) : Int :=
  it.samples_we_need - 1

/-- State of the `while` loop of `op_poll`: the two counters, the caller's buffer, and two
observers that the code does not have: the number of `xrandom` calls made so far and the
iterations executed so far, newest first. -/
structure poll_loop_t (Secs : Type) where
  samples_we_have : Int
  samples_we_need : Int
  samples_out : Int → Secs
  rolls : Nat
  log : List iteration_t

/-- The value of `take_this_sample` when line 59 reads it: `none` when neither branch of
lines 52-58 assigned it.  `roll` is the result of `xrandom(0, samples_we_have-1)`. -/
def take_this_sample (samples_we_have samples_we_need roll : Int) : Option Bool :=
  if samples_we_have = samples_we_need then some true
  else if samples_we_have > samples_we_need then some (decide (roll < samples_we_need))
  else none

/-- Whether an iteration calls `xrandom` (the second branch, line 57). -/
def rolls_die (samples_we_have samples_we_need : Int) : Bool :=
  decide (samples_we_have ≠ samples_we_need ∧ samples_we_have > samples_we_need)

/-- The observers after an iteration: `xrandom` calls made so far, and the iteration log. -/
def observe {Secs : Type} (s : poll_loop_t Secs) (roll : Int) (take : Bool) :
    Nat × List iteration_t :=
  let rolled := rolls_die s.samples_we_have s.samples_we_need
  (if rolled then s.rolls + 1 else s.rolls,
    ⟨s.samples_we_have, s.samples_we_need, if rolled then some roll else none, take⟩ :: s.log)

/-- Line 60, `samples_out[--samples_we_need] = ticks_to_secs(...samples[--samples_we_have])`,
where `t` is the stored sample that was read. -/
def take_sample {Secs : Type} (ticks_to_secs : ticks_t → Secs) (roll : Int) (t : ticks_t)
    (s : poll_loop_t Secs) : poll_loop_t Secs :=
  { samples_we_have := s.samples_we_have - 1
    samples_we_need := s.samples_we_need - 1
    samples_out := Function.update s.samples_out (s.samples_we_need - 1) (ticks_to_secs t)
    rolls := (observe s roll true).1
    log := (observe s roll true).2 }

/-- Line 62, `--samples_we_have`. -/
def skip_sample {Secs : Type} (roll : Int) (s : poll_loop_t Secs) : poll_loop_t Secs :=
  { samples_we_have := s.samples_we_have - 1
    samples_we_need := s.samples_we_need
    samples_out := s.samples_out
    rolls := (observe s roll false).1
    log := (observe s roll false).2 }

/-- One execution of the loop body (lines 51-63); `roll` is what `xrandom` returns if it is
called in this iteration. -/
def loop_body {Secs : Type} (ticks_to_secs : ticks_t → Secs) (stats : query_stats_t)
    (roll : Int) (s : poll_loop_t Secs) : Except fault_t (poll_loop_t Secs) :=
  match take_this_sample s.samples_we_have s.samples_we_need roll with
  | none => Except.error fault_t.uninitialized_read
  | some true =>
    match stats.latency_samples.read (s.samples_we_have - 1) with
    | none => Except.error fault_t.index_out_of_range
    | some t => Except.ok (take_sample ticks_to_secs roll t s)
  | some false => Except.ok (skip_sample roll s)

/-- The loop `while (samples_we_need > 0) { ... }` of lines 50-64, run for at most `fuel`
iterations against the sequence `rng` of `xrandom` results. -/
def poll_loop {Secs : Type} (ticks_to_secs : ticks_t → Secs) (stats : query_stats_t)
    (rng : Nat → Int) : Nat → poll_loop_t Secs → Except fault_t (poll_loop_t Secs)
  | fuel, s =>
    if s.samples_we_need > 0 then
      match fuel with
      | 0 => Except.error fault_t.out_of_fuel
      | fuel + 1 =>
        match loop_body ticks_to_secs stats (rng s.rolls) s with
        | Except.ok s' => poll_loop ticks_to_secs stats rng fuel s'
        | Except.error f => Except.error f
    else Except.ok s

/-- Caller memory behind the four out-pointers of `op_poll`; `none` is a null pointer.
`samples_out` is indexed like the C pointer. -/
structure poll_args (Secs : Type) where
  queries_out : Option Int
  worstlatency_out : Option Secs
  samples_count_inout : Option Int
  samples_out : Option (Int → Secs)

/-- What a call of `op_poll` leaves behind: the operation, the caller memory, and the two
observers of the loop. -/
structure poll_result (Secs : Type) where
  op : op_t
  mem : poll_args Secs
  rolls : Nat
  log : List iteration_t

/-- The loop state set up by lines 46-47 from the capacity `count` read from
`*samples_count_inout`, with the caller's buffer `buf`. -/
def loop_entry {Secs : Type} (stats : query_stats_t) (count : Int) (buf : Int → Secs) :
    poll_loop_t Secs :=
  let samples_we_have := stats.latency_samples.size
  let samples_we_need := min samples_we_have count
  { samples_we_have := samples_we_have
    samples_we_need := samples_we_need
    samples_out := buf
    rolls := 0
    log := [] }

/-- The function `op_poll` (lines 33-66).  The loop gets as much fuel as there are stored samples;
`poll_loop_fuel_mono` shows that more fuel changes nothing. -/
def op_poll {Secs : Type} (ticks_to_secs : ticks_t → Secs) (rng : Nat → Int) (op : op_t)
    (a : poll_args Secs) : Except fault_t (poll_result Secs) :=
  let stats := op.stats
  let queries_out := a.queries_out.map (fun _ => stats.queries)
  let worstlatency_out := a.worstlatency_out.map (fun _ => ticks_to_secs stats.worst_latency)
  match a.samples_count_inout, a.samples_out with
  | some count, some buf =>
    let entry := loop_entry stats count buf
    match poll_loop ticks_to_secs stats rng stats.latency_samples.size.toNat entry with
    | Except.ok s =>
      Except.ok
        { op := op
          mem :=
            { queries_out := queries_out
              worstlatency_out := worstlatency_out
              samples_count_inout := some entry.samples_we_need
              samples_out := some s.samples_out }
          rolls := s.rolls
          log := s.log }
    | Except.error f => Except.error f
  | count, buf =>
    Except.ok
      { op := op
        mem :=
          { queries_out := queries_out
            worstlatency_out := worstlatency_out
            samples_count_inout := count
            samples_out := buf }
        rolls := 0
        log := [] }

/-- The function `op_reset` (lines 67-69). -/
def op_reset (op : op_t) : op_t :=
  { op with stats := query_stats_t.init }

/-! ## Observations on the iteration log -/

/-- The iterations of a log (newest first) that took their sample. -/
def taken (log : List iteration_t) : List iteration_t :=
  log.filter (fun it => it.take_this_sample)

/-- Output subscripts written during a run, newest first. -/
def written_slots (log : List iteration_t) : List Int :=
  (taken log).map iteration_t.output_index

/-- Stored subscripts delivered during a run, newest first. -/
def delivered_positions (log : List iteration_t) : List Int :=
  (taken log).map iteration_t.stored_index

/-- Whether stored position `i` was delivered during a run. -/
def delivered (i : Int) (log : List iteration_t) : Bool :=
  decide (i ∈ delivered_positions log)

/-! ## Uniform reading of `xrandom` -/

/-- Mean of `g` over the integers of the inclusive range `[lo, hi]`: the expected value of
`g (xrandom(lo, hi))` when `xrandom(lo, hi)` is uniform on that range. -/
def uniform_mean (lo hi : Int) (g : Int → ℚ) : ℚ :=
  ((List.range (hi - lo + 1).toNat).map (fun j : Nat => g (lo + (j : Int)))).sum
    / ((hi - lo + 1 : Int) : ℚ)

/-- Expected value of `f` at loop exit when every `xrandom(0, samples_we_have-1)` call of the
loop is an independent uniform draw; the loop is the one of `poll_loop`, with the same body. Runs
that fault or exhaust the fuel contribute `0`. -/
def poll_loop_expect {Secs : Type} (ticks_to_secs : ticks_t → Secs) (stats : query_stats_t)
    (f : poll_loop_t Secs → ℚ) : Nat → poll_loop_t Secs → ℚ
  | fuel, s =>
    if s.samples_we_need > 0 then
      match fuel with
      | 0 => 0
      | fuel + 1 =>
        if rolls_die s.samples_we_have s.samples_we_need then
          uniform_mean 0 (s.samples_we_have - 1) (fun roll =>
            match loop_body ticks_to_secs stats roll s with
            | Except.ok s' => poll_loop_expect ticks_to_secs stats f fuel s'
            | Except.error _ => 0)
        else
          match loop_body ticks_to_secs stats 0 s with
          | Except.ok s' => poll_loop_expect ticks_to_secs stats f fuel s'
          | Except.error _ => 0
    else f s

/-- The value of a quantity `f` of the loop exit state on the outcome of a run; runs that fault
count `0`. -/
def outcome_value {Secs : Type} (f : poll_loop_t Secs → ℚ) :
    Except fault_t (poll_loop_t Secs) → ℚ
  | Except.ok s => f s
  | Except.error _ => 0

/-- The sequence of `xrandom` results in which the calls number `c`, `c + 1`, ... return the
entries of `rs`, in order. -/
def results_from (c : Nat) (rs : List Int) : Nat → Int :=
  fun j => rs.getD (j - c) 0

/-- The possible results of `xrandom(lo, hi)`: the integers of the inclusive range `[lo, hi]`. -/
def xrandom_range (lo hi : Int) : List Int :=
  (List.range (hi - lo + 1).toNat).map (fun j : Nat => lo + (j : Int))

/-- The law of the `xrandom` results of a run of the loop from state `s`, when every call
`xrandom(0, samples_we_have-1)` is an independent uniform draw: each sequence of results the
remaining run can see, with its probability.  A call made with `samples_we_have = h` returns each
of its `h` possible results with probability `1 / h`. -/
def xrandom_sequences {Secs : Type} (ticks_to_secs : ticks_t → Secs) (stats : query_stats_t) :
    Nat → poll_loop_t Secs → List (List Int × ℚ)
  | fuel, s =>
    if s.samples_we_need > 0 then
      match fuel with
      | 0 => []
      | fuel + 1 =>
        if rolls_die s.samples_we_have s.samples_we_need then
          (xrandom_range 0 (s.samples_we_have - 1)).flatMap (fun roll =>
            match loop_body ticks_to_secs stats roll s with
            | Except.ok s' =>
              (xrandom_sequences ticks_to_secs stats fuel s').map
                (fun x => (roll :: x.1, x.2 / (s.samples_we_have : ℚ)))
            | Except.error _ => [])
        else
          match loop_body ticks_to_secs stats 0 s with
          | Except.ok s' => xrandom_sequences ticks_to_secs stats fuel s'
          | Except.error _ => []
    else [([], 1)]

/-- Whether stored position `i` is in the output of a call of `op_poll`: the call returned, some
iteration took stored position `i`, and the slot of the returned buffer that this iteration
stored to holds `ticks_to_secs(latency_samples.samples[i])`. -/
def in_output {Secs : Type} [DecidableEq Secs] (ticks_to_secs : ticks_t → Secs)
    (stats : query_stats_t) (i : Int) : Except fault_t (poll_result Secs) → Bool
  | Except.error _ => false
  | Except.ok r =>
    match r.mem.samples_out, stats.latency_samples.read i with
    | some out, some t =>
      (taken r.log).any (fun it =>
        decide (it.stored_index = i) && decide (out it.output_index = ticks_to_secs t))
    | _, _ => false

/-- Probability that `op_poll`, asked for `count` samples into buffer `buf`, has stored position
`i` in its output: the sum, over the sequences of `xrandom` results of `xrandom_sequences`, of
the probability of the sequence when `op_poll` run against it has position `i` in its output. -/
def inclusion_probability {Secs : Type} [DecidableEq Secs] (ticks_to_secs : ticks_t → Secs)
    (op : op_t) (count : Int) (buf : Int → Secs) (i : Int) : ℚ :=
  ((xrandom_sequences ticks_to_secs op.stats op.stats.latency_samples.size.toNat
      (loop_entry op.stats count buf)).map
    (fun x =>
      x.2 * (if in_output ticks_to_secs op.stats i
          (op_poll ticks_to_secs (results_from 0 x.1) op ⟨none, none, some count, some buf⟩)
        then 1 else 0))).sum

/-! ## The stores of a run -/

/-- The buffer obtained from `buf` by performing, oldest first, the stores of the iterations of
`log` that took their sample: iteration `it` stores
`ticks_to_secs(latency_samples.samples[it.stored_index])` at `it.output_index` (line 60). -/
def apply_stores {Secs : Type} (ticks_to_secs : ticks_t → Secs) (stats : query_stats_t) :
    List iteration_t → (Int → Secs) → (Int → Secs)
  | [], buf => buf
  | it :: older, buf =>
    let b := apply_stores ticks_to_secs stats older buf
    if it.take_this_sample then
      match stats.latency_samples.read it.stored_index with
      | some t => Function.update b it.output_index (ticks_to_secs t)
      | none => b
    else b

/-! ## `op_poll` with `int *` arguments that may point into the operation -/

/-- Where an `int *` argument of `op_poll` points: nowhere, at an `int` cell of the caller, or at
the `int` field `op->stats.queries` of the operation that is polled. -/
inductive int_ptr where
  | null
  | caller (cell : Nat)
  | stats_queries
deriving DecidableEq

/-- The memory `op_poll` reaches through its `int *` arguments and through `op`: the operation
and the `int` cells of the caller. -/
structure int_memory where
  op : op_t
  cells : Nat → Int

/-- The read `*p` of a non-null `int *`. -/
def int_memory.load (m : int_memory) : int_ptr → Int
  | int_ptr.null => 0
  | int_ptr.caller cell => m.cells cell
  | int_ptr.stats_queries => m.op.stats.queries

/-- The assignment `*p = v` through a non-null `int *`. -/
def int_memory.store (m : int_memory) (p : int_ptr) (v : Int) : int_memory :=
  match p with
  | int_ptr.null => m
  | int_ptr.caller cell => { m with cells := Function.update m.cells cell v }
  | int_ptr.stats_queries =>
    { m with op := { m.op with stats := { m.op.stats with queries := v } } }

/-- What a call of `op_poll` leaves behind when its `int *` arguments are pointers into
`int_memory`. -/
structure poll_ptr_result (Secs : Type) where
  mem : int_memory
  worstlatency_out : Option Secs
  samples_out : Option (Int → Secs)
  rolls : Nat
  log : List iteration_t

/-- The function `op_poll` (lines 33-66) with `queries_out` and `samples_count_inout` given as
pointers that may point at the same caller cell or at `op->stats.queries`.  `stats` is the
pointer `&op->stats`, so every read of `stats->...` sees the stores made before it.  The two
`float *` arguments are as in `op_poll`: no `float` lives in the operation. -/
def op_poll_ptr {Secs : Type} (ticks_to_secs : ticks_t → Secs) (rng : Nat → Int)
    (m : int_memory) (queries_out : int_ptr) (worstlatency_out : Option Secs)
    (samples_count_inout : int_ptr) (samples_out : Option (Int → Secs)) :
    Except fault_t (poll_ptr_result Secs) :=
  let m1 := if queries_out = int_ptr.null then m else m.store queries_out m.op.stats.queries
  let worstlatency_out :=
    worstlatency_out.map (fun _ => ticks_to_secs m1.op.stats.worst_latency)
  match samples_out with
  | some buf =>
    if samples_count_inout = int_ptr.null then
      Except.ok
        { mem := m1, worstlatency_out := worstlatency_out, samples_out := some buf,
          rolls := 0, log := [] }
    else
      let entry := loop_entry m1.op.stats (m1.load samples_count_inout) buf
      let m2 := m1.store samples_count_inout entry.samples_we_need
      match poll_loop ticks_to_secs m2.op.stats rng m1.op.stats.latency_samples.size.toNat
          entry with
      | Except.ok s =>
        Except.ok
          { mem := m2, worstlatency_out := worstlatency_out,
            samples_out := some s.samples_out, rolls := s.rolls, log := s.log }
      | Except.error f => Except.error f
  | none =>
    Except.ok
      { mem := m1, worstlatency_out := worstlatency_out, samples_out := none,
        rolls := 0, log := [] }

/-! ## Concrete inputs used to instantiate the theorems -/

/-- A conversion for the examples: one tick is a microsecond. -/
def example_ticks_to_secs (t : ticks_t) : ℚ :=
  (t : ℚ) / 1000000

/-- Statistics with four stored samples. -/
def example_stats : query_stats_t :=
  { queries := 9, worst_latency := 40, latency_samples := { samples := [10, 20, 30, 40] } }

/-- An operation holding `example_stats`, with its spinlock held. -/
def example_op : op_t :=
  { stats := example_stats, stats_spinlock := true }

/-- A caller buffer filled with zeros. -/
def example_buf : Int → ℚ :=
  fun _ => 0

/-- A sequence of `xrandom` results: every call returns `2`. -/
def example_rng : Nat → Int :=
  fun _ => 2

/-- A loop state with four samples left to scan and two still needed. -/
def example_state : poll_loop_t ℚ :=
  { samples_we_have := 4, samples_we_need := 2, samples_out := example_buf, rolls := 0, log := [] }

/-- The operation `example_op` together with caller cells that all hold `0`. -/
def example_memory : int_memory :=
  { op := example_op, cells := fun _ => 0 }

/-! # Theorems -/

variable {Secs : Type}

/-! ## The loop body and induction along the loop -/

theorem read_in_range (stats : query_stats_t) (i : Int) (h0 : 0 ≤ i)
    (h1 : i < stats.latency_samples.size) :
    ∃ t, stats.latency_samples.samples[i.toNat]? = some t ∧
      stats.latency_samples.read i = some t := by
  have hlt : i.toNat < stats.latency_samples.samples.length := by
    unfold reservoir_sample_t.size at h1
    omega
  refine ⟨stats.latency_samples.samples[i.toNat], List.getElem?_eq_getElem hlt, ?_⟩
  simp [reservoir_sample_t.read, h0, List.getElem?_eq_getElem hlt]

/-- What one iteration does when line 59 finds `take_this_sample` true. -/
theorem loop_body_take (ticks_to_secs : ticks_t → Secs) (stats : query_stats_t) (roll : Int)
    (s : poll_loop_t Secs) (h0 : 0 < s.samples_we_need)
    (h1 : s.samples_we_need ≤ s.samples_we_have)
    (h2 : s.samples_we_have ≤ stats.latency_samples.size)
    (ht : s.samples_we_have = s.samples_we_need ∨ roll < s.samples_we_need) :
    ∃ t, stats.latency_samples.samples[(s.samples_we_have - 1).toNat]? = some t ∧
      loop_body ticks_to_secs stats roll s = Except.ok (take_sample ticks_to_secs roll t s) := by
  obtain ⟨t, ht1, ht2⟩ := read_in_range stats (s.samples_we_have - 1) (by omega) (by omega)
  refine ⟨t, ht1, ?_⟩
  have htake : take_this_sample s.samples_we_have s.samples_we_need roll = some true := by
    unfold take_this_sample
    rcases ht with h | h
    · simp [h]
    · by_cases he : s.samples_we_have = s.samples_we_need
      · simp [he]
      · have : s.samples_we_have > s.samples_we_need := by omega
        simp [he, this, h]
  simp only [loop_body, htake, ht2]

/-- What one iteration does when line 59 finds `take_this_sample` false. -/
theorem loop_body_skip (ticks_to_secs : ticks_t → Secs) (stats : query_stats_t) (roll : Int)
    (s : poll_loop_t Secs) (h1 : s.samples_we_need < s.samples_we_have)
    (ht : ¬ roll < s.samples_we_need) :
    loop_body ticks_to_secs stats roll s = Except.ok (skip_sample roll s) := by
  have hne : ¬ s.samples_we_have = s.samples_we_need := by omega
  have htake : take_this_sample s.samples_we_have s.samples_we_need roll = some false := by
    unfold take_this_sample
    simp [hne, h1, ht]
  simp only [loop_body, htake]

theorem poll_loop_exit (ticks_to_secs : ticks_t → Secs) (stats : query_stats_t)
    (rng : Nat → Int) (fuel : Nat) (s : poll_loop_t Secs) (h : ¬ s.samples_we_need > 0) :
    poll_loop ticks_to_secs stats rng fuel s = Except.ok s := by
  cases fuel <;> simp [poll_loop, h]

theorem poll_loop_iterate (ticks_to_secs : ticks_t → Secs) (stats : query_stats_t)
    (rng : Nat → Int) (fuel : Nat) (s s' : poll_loop_t Secs) (h : s.samples_we_need > 0)
    (hb : loop_body ticks_to_secs stats (rng s.rolls) s = Except.ok s') :
    poll_loop ticks_to_secs stats rng (fuel + 1) s = poll_loop ticks_to_secs stats rng fuel s' := by
  simp [poll_loop, h, hb]

/-- Induction along the executions of the loop: a relation between the state at the loop test and
the state at loop exit holds as soon as it holds for an exit without iteration and is carried
backwards over an iteration that takes its sample and over one that skips it. -/
theorem poll_loop_induction (ticks_to_secs : ticks_t → Secs) (stats : query_stats_t)
    (rng : Nat → Int) (P : poll_loop_t Secs → poll_loop_t Secs → Prop)
    (base : ∀ s : poll_loop_t Secs, s.samples_we_need ≤ 0 → 0 ≤ s.samples_we_have →
      s.samples_we_have ≤ stats.latency_samples.size → P s s)
    (take : ∀ (s s'' : poll_loop_t Secs) (t : ticks_t), 0 < s.samples_we_need →
      s.samples_we_need ≤ s.samples_we_have →
      s.samples_we_have ≤ stats.latency_samples.size →
      (s.samples_we_have = s.samples_we_need ∨ rng s.rolls < s.samples_we_need) →
      stats.latency_samples.samples[(s.samples_we_have - 1).toNat]? = some t →
      s''.samples_we_need ≤ 0 →
      P (take_sample ticks_to_secs (rng s.rolls) t s) s'' → P s s'')
    (skip : ∀ (s s'' : poll_loop_t Secs), 0 < s.samples_we_need →
      s.samples_we_need < s.samples_we_have →
      s.samples_we_have ≤ stats.latency_samples.size →
      ¬ rng s.rolls < s.samples_we_need →
      s''.samples_we_need ≤ 0 →
      P (skip_sample (rng s.rolls) s) s'' → P s s'') :
    ∀ (fuel : Nat) (s : poll_loop_t Secs), 0 ≤ s.samples_we_have →
      s.samples_we_need ≤ s.samples_we_have →
      s.samples_we_have ≤ stats.latency_samples.size →
      s.samples_we_have.toNat ≤ fuel →
      ∃ s'', poll_loop ticks_to_secs stats rng fuel s = Except.ok s'' ∧
        s''.samples_we_need ≤ 0 ∧ P s s'' := by
  intro fuel
  induction fuel with
  | zero =>
    intro s h0 h1 h2 hf
    have hn : s.samples_we_need ≤ 0 := by omega
    exact ⟨s, poll_loop_exit _ _ _ _ _ (by omega), hn, base s hn h0 h2⟩
  | succ fuel ih =>
    intro s h0 h1 h2 hf
    by_cases hn : s.samples_we_need > 0
    · by_cases ht : s.samples_we_have = s.samples_we_need ∨ rng s.rolls < s.samples_we_need
      · obtain ⟨t, ht1, ht2⟩ := loop_body_take ticks_to_secs stats (rng s.rolls) s hn h1 h2 ht
        obtain ⟨s'', hs1, hs2, hs3⟩ := ih (take_sample ticks_to_secs (rng s.rolls) t s)
          (by simp only [take_sample]; omega) (by simp only [take_sample]; omega)
          (by simp only [take_sample]; omega) (by simp only [take_sample]; omega)
        refine ⟨s'', ?_, hs2, take s s'' t hn h1 h2 ht ht1 hs2 hs3⟩
        rw [poll_loop_iterate _ _ _ _ _ _ hn ht2]
        exact hs1
      · have hlt : s.samples_we_need < s.samples_we_have := by omega
        have hr : ¬ rng s.rolls < s.samples_we_need := fun h => ht (Or.inr h)
        have hb := loop_body_skip ticks_to_secs stats (rng s.rolls) s hlt hr
        obtain ⟨s'', hs1, hs2, hs3⟩ := ih (skip_sample (rng s.rolls) s)
          (by simp only [skip_sample]; omega) (by simp only [skip_sample]; omega)
          (by simp only [skip_sample]; omega) (by simp only [skip_sample]; omega)
        refine ⟨s'', ?_, hs2, skip s s'' hn hlt h2 hr hs2 hs3⟩
        rw [poll_loop_iterate _ _ _ _ _ _ hn hb]
        exact hs1
    · have hz : s.samples_we_need ≤ 0 := by omega
      exact ⟨s, poll_loop_exit _ _ _ _ _ hn, hz, base s hz h0 h2⟩

/-! ## Slots written -/

theorem taken_cons (it : iteration_t) (log : List iteration_t) :
    taken (it :: log) = if it.take_this_sample then it :: taken log else taken log := by
  unfold taken
  by_cases h : it.take_this_sample <;> simp [List.filter_cons, h]

theorem written_slots_take (ticks_to_secs : ticks_t → Secs) (roll : Int) (t : ticks_t)
    (s : poll_loop_t Secs) :
    written_slots (take_sample ticks_to_secs roll t s).log
      = (s.samples_we_need - 1) :: written_slots s.log := by
  simp [written_slots, take_sample, observe, taken_cons, iteration_t.output_index]

theorem written_slots_skip (roll : Int) (s : poll_loop_t Secs) :
    written_slots (skip_sample roll s).log = written_slots s.log := by
  simp [written_slots, skip_sample, observe, taken_cons]

theorem delivered_positions_take (ticks_to_secs : ticks_t → Secs) (roll : Int) (t : ticks_t)
    (s : poll_loop_t Secs) :
    delivered_positions (take_sample ticks_to_secs roll t s).log
      = (s.samples_we_have - 1) :: delivered_positions s.log := by
  simp [delivered_positions, take_sample, observe, taken_cons, iteration_t.stored_index]

theorem delivered_positions_skip (roll : Int) (s : poll_loop_t Secs) :
    delivered_positions (skip_sample roll s).log = delivered_positions s.log := by
  simp [delivered_positions, skip_sample, observe, taken_cons]

theorem range_toNat_pred (d : Int) (h : 0 < d) :
    List.range d.toNat = List.range (d - 1).toNat ++ [(d - 1).toNat] := by
  have : d.toNat = (d - 1).toNat + 1 := by omega
  rw [this, List.range_succ]

/-- The output subscripts written by the loop, newest first, are `0, 1, ..., samples_we_need-1`. -/
theorem poll_loop_written_slots (ticks_to_secs : ticks_t → Secs) (stats : query_stats_t)
    (rng : Nat → Int) (fuel : Nat) (s : poll_loop_t Secs)
    (h0 : 0 ≤ s.samples_we_have) (h1 : s.samples_we_need ≤ s.samples_we_have)
    (h2 : s.samples_we_have ≤ stats.latency_samples.size)
    (hf : s.samples_we_have.toNat ≤ fuel) :
    ∃ s'', poll_loop ticks_to_secs stats rng fuel s = Except.ok s'' ∧
      s''.samples_we_need ≤ 0 ∧
      written_slots s''.log
        = (List.range s.samples_we_need.toNat).map Int.ofNat ++ written_slots s.log := by
  refine poll_loop_induction ticks_to_secs stats rng
    (fun s s'' => written_slots s''.log
        = (List.range s.samples_we_need.toNat).map Int.ofNat ++ written_slots s.log)
    ?_ ?_ ?_ fuel s h0 h1 h2 hf
  · intro s hn _ _
    have : s.samples_we_need.toNat = 0 := by omega
    simp [this]
  · intro s s'' t hn _ _ _ _ _ ih
    simp only at ih ⊢
    rw [ih, written_slots_take, range_toNat_pred _ hn]
    have e1 : (take_sample ticks_to_secs (rng s.rolls) t s).samples_we_need
        = s.samples_we_need - 1 := rfl
    have e2 : Int.ofNat (s.samples_we_need - 1).toNat = s.samples_we_need - 1 := by
      simp only [Int.ofNat_eq_coe]; omega
    simp only [e1, List.map_append, List.map_cons, List.map_nil, e2, List.append_assoc,
      List.singleton_append]
  · intro s s'' _ _ _ _ _ ih
    simp only at ih ⊢
    rw [ih, written_slots_skip]
    rfl

/-! ## Shape of the log, and what is delivered -/

/-- Shape of the iteration log of the loop: every iteration runs with
`0 < samples_we_need ≤ samples_we_have`, below the counters the loop started with, and the
number of iterations is the decrease of `samples_we_have`. -/
theorem poll_loop_log (ticks_to_secs : ticks_t → Secs) (stats : query_stats_t)
    (rng : Nat → Int) (fuel : Nat) (s : poll_loop_t Secs)
    (h0 : 0 ≤ s.samples_we_have) (h1 : s.samples_we_need ≤ s.samples_we_have)
    (h2 : s.samples_we_have ≤ stats.latency_samples.size)
    (hf : s.samples_we_have.toNat ≤ fuel) :
    ∃ s'', poll_loop ticks_to_secs stats rng fuel s = Except.ok s'' ∧
      s''.samples_we_need ≤ 0 ∧
      ∃ new, s''.log = new ++ s.log ∧
        (new.length : Int) + s''.samples_we_have = s.samples_we_have ∧
        0 ≤ s''.samples_we_have ∧ s''.samples_we_need = min s.samples_we_need 0 ∧
        ∀ it ∈ new, 0 < it.samples_we_need ∧ it.samples_we_need ≤ it.samples_we_have ∧
          it.samples_we_have ≤ s.samples_we_have ∧ it.samples_we_need ≤ s.samples_we_need := by
  refine poll_loop_induction ticks_to_secs stats rng
    (fun s s'' => ∃ new, s''.log = new ++ s.log ∧
        (new.length : Int) + s''.samples_we_have = s.samples_we_have ∧
        0 ≤ s''.samples_we_have ∧ s''.samples_we_need = min s.samples_we_need 0 ∧
        ∀ it ∈ new, 0 < it.samples_we_need ∧ it.samples_we_need ≤ it.samples_we_have ∧
          it.samples_we_have ≤ s.samples_we_have ∧ it.samples_we_need ≤ s.samples_we_need)
    ?_ ?_ ?_ fuel s h0 h1 h2 hf
  · intro s hn hh _
    exact ⟨[], by simp, by simp, hh, by omega, by simp⟩
  · intro s s'' t hn hle _ _ _ _ ih
    obtain ⟨new, e1, e2, e3, e4, e5⟩ := ih
    refine ⟨new ++ [⟨s.samples_we_have, s.samples_we_need,
      if rolls_die s.samples_we_have s.samples_we_need then some (rng s.rolls) else none, true⟩],
      ?_, ?_, e3, ?_, ?_⟩
    · rw [e1]; simp [take_sample, observe]
    · simp only [take_sample] at e2
      simp only [List.length_append, List.length_singleton]
      push_cast
      omega
    · simp only [take_sample] at e4
      omega
    · intro it hit
      rcases List.mem_append.mp hit with h | h
      · have := e5 it h
        simp only [take_sample] at this
        omega
      · simp only [List.mem_singleton] at h
        subst h
        simp only
        omega
  · intro s s'' hn hlt _ _ _ ih
    obtain ⟨new, e1, e2, e3, e4, e5⟩ := ih
    refine ⟨new ++ [⟨s.samples_we_have, s.samples_we_need,
      if rolls_die s.samples_we_have s.samples_we_need then some (rng s.rolls) else none, false⟩],
      ?_, ?_, e3, ?_, ?_⟩
    · rw [e1]; simp [skip_sample, observe]
    · simp only [skip_sample] at e2
      simp only [List.length_append, List.length_singleton]
      push_cast
      omega
    · simp only [skip_sample] at e4
      omega
    · intro it hit
      rcases List.mem_append.mp hit with h | h
      · have := e5 it h
        simp only [skip_sample] at this
        omega
      · simp only [List.mem_singleton] at h
        subst h
        simp only
        omega

/-- What the loop delivers: it leaves the buffer alone outside `[0, samples_we_need)`, and the
slots inside hold converted stored samples taken at strictly increasing stored positions. -/
theorem poll_loop_delivers (ticks_to_secs : ticks_t → Secs) (stats : query_stats_t)
    (rng : Nat → Int) (fuel : Nat) (s : poll_loop_t Secs)
    (h0 : 0 ≤ s.samples_we_have) (h1 : s.samples_we_need ≤ s.samples_we_have)
    (h2 : s.samples_we_have ≤ stats.latency_samples.size)
    (hf : s.samples_we_have.toNat ≤ fuel) :
    ∃ s'', poll_loop ticks_to_secs stats rng fuel s = Except.ok s'' ∧
      s''.samples_we_need ≤ 0 ∧
      (∀ j : Int, j < 0 ∨ s.samples_we_need ≤ j → s''.samples_out j = s.samples_out j) ∧
      ∃ f : Nat → Nat,
        (∀ a b, a < b → b < s.samples_we_need.toNat → f a < f b) ∧
        (∀ j, j < s.samples_we_need.toNat → (f j : Int) < s.samples_we_have ∧
          ∃ t, stats.latency_samples.samples[f j]? = some t ∧
            s''.samples_out (j : Int) = ticks_to_secs t) ∧
        delivered_positions s''.log
          = (List.range s.samples_we_need.toNat).map (fun j => (f j : Int))
            ++ delivered_positions s.log := by
  refine poll_loop_induction ticks_to_secs stats rng
    (fun s s'' =>
      (∀ j : Int, j < 0 ∨ s.samples_we_need ≤ j → s''.samples_out j = s.samples_out j) ∧
      ∃ f : Nat → Nat,
        (∀ a b, a < b → b < s.samples_we_need.toNat → f a < f b) ∧
        (∀ j, j < s.samples_we_need.toNat → (f j : Int) < s.samples_we_have ∧
          ∃ t, stats.latency_samples.samples[f j]? = some t ∧
            s''.samples_out (j : Int) = ticks_to_secs t) ∧
        delivered_positions s''.log
          = (List.range s.samples_we_need.toNat).map (fun j => (f j : Int))
            ++ delivered_positions s.log)
    ?_ ?_ ?_ fuel s h0 h1 h2 hf
  · intro s hn _ _
    have hz : s.samples_we_need.toNat = 0 := by omega
    refine ⟨fun _ _ => rfl, fun j => j, ?_, ?_, ?_⟩
    · intro a b _ hb; omega
    · intro j hj; omega
    · simp [hz]
  · intro s s'' t hn hle _ _ hread _ ih
    obtain ⟨hframe, f, hmono, hval, hdel⟩ := ih
    simp only [take_sample] at hframe hmono hval
    have hlast : s''.samples_out (s.samples_we_need - 1) = ticks_to_secs t := by
      rw [hframe _ (Or.inr (le_refl _))]
      simp
    refine ⟨?_, fun j => if j = (s.samples_we_need - 1).toNat then
      (s.samples_we_have - 1).toNat else f j, ?_, ?_, ?_⟩
    · intro j hj
      rw [hframe j (by omega)]
      have : j ≠ s.samples_we_need - 1 := by omega
      simp [Function.update, this]
    · intro a b hab hb
      have ha : a ≠ (s.samples_we_need - 1).toNat := by omega
      simp only [ha, if_false]
      by_cases hbl : b = (s.samples_we_need - 1).toNat
      · simp only [hbl, if_true]
        have := (hval a (by omega)).1
        omega
      · simp only [hbl, if_false]
        exact hmono a b hab (by omega)
    · intro j hj
      by_cases hjl : j = (s.samples_we_need - 1).toNat
      · simp only [hjl, if_true]
        refine ⟨by omega, t, hread, ?_⟩
        have : (((s.samples_we_need - 1).toNat : Nat) : Int) = s.samples_we_need - 1 := by omega
        rw [this]
        exact hlast
      · simp only [hjl, if_false]
        obtain ⟨hb, t', ht1, ht2⟩ := hval j (by omega)
        exact ⟨by omega, t', ht1, ht2⟩
    · rw [hdel, delivered_positions_take, range_toNat_pred _ hn]
      have e1 : (take_sample ticks_to_secs (rng s.rolls) t s).samples_we_need
          = s.samples_we_need - 1 := rfl
      have e2 : (((s.samples_we_have - 1).toNat : Nat) : Int) = s.samples_we_have - 1 := by omega
      rw [e1]
      simp only [List.map_append, List.map_cons, List.map_nil, if_true, e2, List.append_assoc,
        List.singleton_append]
      congr 1
      apply List.map_congr_left
      intro j hj
      have : j ≠ (s.samples_we_need - 1).toNat := by
        have := List.mem_range.mp hj
        omega
      simp only [this, if_false]
  · intro s s'' hn hlt _ _ _ ih
    obtain ⟨hframe, f, hmono, hval, hdel⟩ := ih
    simp only [skip_sample] at hframe hmono hval
    refine ⟨hframe, f, hmono, ?_, ?_⟩
    · intro j hj
      obtain ⟨hb, t', ht1, ht2⟩ := hval j hj
      exact ⟨by omega, t', ht1, ht2⟩
    · rw [hdel, delivered_positions_skip]
      rfl

/-! ## Fuel, and runs that take every sample -/

/-- More fuel does not change a finished run of the loop. -/
theorem poll_loop_fuel_mono (ticks_to_secs : ticks_t → Secs) (stats : query_stats_t)
    (rng : Nat → Int) (fuel : Nat) :
    ∀ (s s'' : poll_loop_t Secs) (fuel' : Nat), fuel ≤ fuel' →
      poll_loop ticks_to_secs stats rng fuel s = Except.ok s'' →
      poll_loop ticks_to_secs stats rng fuel' s = Except.ok s'' := by
  induction fuel with
  | zero =>
    intro s s'' fuel' _ h
    by_cases hn : s.samples_we_need > 0
    · simp [poll_loop, hn] at h
    · rw [poll_loop_exit _ _ _ _ _ hn] at h
      rw [poll_loop_exit _ _ _ _ _ hn]
      exact h
  | succ fuel ih =>
    intro s s'' fuel' hle h
    by_cases hn : s.samples_we_need > 0
    · obtain ⟨g, rfl⟩ : ∃ g, fuel' = g + 1 := ⟨fuel' - 1, by omega⟩
      cases hb : loop_body ticks_to_secs stats (rng s.rolls) s with
      | error f => simp [poll_loop, hn, hb] at h
      | ok s' =>
        rw [poll_loop_iterate _ _ _ _ _ _ hn hb] at h
        rw [poll_loop_iterate _ _ _ _ _ _ hn hb]
        exact ih s' s'' g (by omega) h
    · rw [poll_loop_exit _ _ _ _ _ hn] at h
      rw [poll_loop_exit _ _ _ _ _ hn]
      exact h

/-- When every remaining sample is needed the body ignores the die. -/
theorem loop_body_full (ticks_to_secs : ticks_t → Secs) (stats : query_stats_t)
    (roll roll' : Int) (s : poll_loop_t Secs) (h : s.samples_we_need = s.samples_we_have) :
    loop_body ticks_to_secs stats roll s = loop_body ticks_to_secs stats roll' s := by
  simp [loop_body, take_this_sample, take_sample, observe, rolls_die, h]

theorem loop_body_full_next (ticks_to_secs : ticks_t → Secs) (stats : query_stats_t)
    (roll : Int) (s s' : poll_loop_t Secs) (h : s.samples_we_need = s.samples_we_have)
    (hb : loop_body ticks_to_secs stats roll s = Except.ok s') :
    s'.samples_we_need = s'.samples_we_have ∧ s'.rolls = s.rolls := by
  simp only [loop_body, take_this_sample, h, if_true] at hb
  cases hr : stats.latency_samples.read (s.samples_we_have - 1) with
  | none => simp [hr] at hb
  | some t =>
    simp only [hr, Except.ok.injEq] at hb
    subst hb
    simp [take_sample, observe, rolls_die, h]

/-- When every remaining sample is needed the run does not depend on the `xrandom` results and
makes no `xrandom` call. -/
theorem poll_loop_full (ticks_to_secs : ticks_t → Secs) (stats : query_stats_t)
    (rng rng' : Nat → Int) (fuel : Nat) :
    ∀ s : poll_loop_t Secs, s.samples_we_need = s.samples_we_have →
      poll_loop ticks_to_secs stats rng fuel s = poll_loop ticks_to_secs stats rng' fuel s ∧
      ∀ s'', poll_loop ticks_to_secs stats rng fuel s = Except.ok s'' → s''.rolls = s.rolls := by
  induction fuel with
  | zero =>
    intro s _
    by_cases hn : s.samples_we_need > 0
    · simp [poll_loop, hn]
    · rw [poll_loop_exit _ _ _ _ _ hn, poll_loop_exit _ _ _ _ _ hn]
      exact ⟨rfl, fun s'' h => by cases h; rfl⟩
  | succ fuel ih =>
    intro s h
    by_cases hn : s.samples_we_need > 0
    · have hb := loop_body_full ticks_to_secs stats (rng s.rolls) (rng' s.rolls) s h
      cases hb1 : loop_body ticks_to_secs stats (rng s.rolls) s with
      | error f =>
        have hb2 : loop_body ticks_to_secs stats (rng' s.rolls) s = Except.error f := by
          rw [← hb, hb1]
        simp [poll_loop, hn, hb1, hb2]
      | ok s' =>
        have hb2 : loop_body ticks_to_secs stats (rng' s.rolls) s = Except.ok s' := by
          rw [← hb, hb1]
        obtain ⟨e1, e2⟩ := loop_body_full_next ticks_to_secs stats _ s s' h hb1
        rw [poll_loop_iterate _ _ _ _ _ _ hn hb1, poll_loop_iterate _ _ _ _ _ _ hn hb2]
        obtain ⟨i1, i2⟩ := ih s' e1
        exact ⟨i1, fun s'' hs => by rw [i2 s'' hs, e2]⟩
    · rw [poll_loop_exit _ _ _ _ _ hn, poll_loop_exit _ _ _ _ _ hn]
      exact ⟨rfl, fun s'' h => by cases h; rfl⟩

/-- When every remaining sample is needed, output slot `j` receives stored sample `j`. -/
theorem poll_loop_full_values (ticks_to_secs : ticks_t → Secs) (stats : query_stats_t)
    (rng : Nat → Int) (fuel : Nat) (s : poll_loop_t Secs)
    (h0 : 0 ≤ s.samples_we_have) (h1 : s.samples_we_need ≤ s.samples_we_have)
    (h2 : s.samples_we_have ≤ stats.latency_samples.size)
    (hf : s.samples_we_have.toNat ≤ fuel) :
    ∃ s'', poll_loop ticks_to_secs stats rng fuel s = Except.ok s'' ∧
      s''.samples_we_need ≤ 0 ∧
      (∀ j : Int, j < 0 ∨ s.samples_we_need ≤ j → s''.samples_out j = s.samples_out j) ∧
      (s.samples_we_need = s.samples_we_have →
        ∀ (j : Nat) (t : ticks_t), (j : Int) < s.samples_we_have →
          stats.latency_samples.samples[j]? = some t →
          s''.samples_out (j : Int) = ticks_to_secs t) := by
  refine poll_loop_induction ticks_to_secs stats rng
    (fun s s'' =>
      (∀ j : Int, j < 0 ∨ s.samples_we_need ≤ j → s''.samples_out j = s.samples_out j) ∧
      (s.samples_we_need = s.samples_we_have →
        ∀ (j : Nat) (t : ticks_t), (j : Int) < s.samples_we_have →
          stats.latency_samples.samples[j]? = some t →
          s''.samples_out (j : Int) = ticks_to_secs t))
    ?_ ?_ ?_ fuel s h0 h1 h2 hf
  · intro s hn hh _
    exact ⟨fun _ _ => rfl, fun he j t hj _ => by omega⟩
  · intro s s'' t hn hle _ _ hread _ ih
    obtain ⟨hframe, hfull⟩ := ih
    simp only [take_sample] at hframe hfull
    refine ⟨?_, ?_⟩
    · intro j hj
      rw [hframe j (by omega)]
      have : j ≠ s.samples_we_need - 1 := by omega
      simp [Function.update, this]
    · intro he j t' hj ht'
      by_cases hjl : (j : Int) = s.samples_we_have - 1
      · have e : (s.samples_we_have - 1).toNat = j := by omega
        rw [e, ht'] at hread
        cases hread
        rw [hjl, ← he, hframe _ (Or.inr (le_refl _))]
        simp
      · exact hfull (by omega) j t' (by omega) ht'
  · intro s s'' hn hlt _ _ _ ih
    obtain ⟨hframe, _⟩ := ih
    simp only [skip_sample] at hframe
    exact ⟨hframe, fun he => by omega⟩

/-- The result of `op_poll` with both sample pointers present, from the result of its loop. -/
theorem op_poll_of_loop (ticks_to_secs : ticks_t → Secs) (rng : Nat → Int) (op : op_t)
    (q : Option Int) (w : Option Secs) (k : Int) (buf : Int → Secs) (s : poll_loop_t Secs)
    (h : poll_loop ticks_to_secs op.stats rng op.stats.latency_samples.size.toNat
      (loop_entry op.stats k buf) = Except.ok s) :
    op_poll ticks_to_secs rng op ⟨q, w, some k, some buf⟩ = Except.ok
      { op := op
        mem :=
          { queries_out := q.map (fun _ => op.stats.queries)
            worstlatency_out := w.map (fun _ => ticks_to_secs op.stats.worst_latency)
            samples_count_inout := some (min op.stats.latency_samples.size k)
            samples_out := some s.samples_out }
        rolls := s.rolls
        log := s.log } := by
  simp only [op_poll, h]
  rfl

/-- The result of `op_poll` when a sample pointer is null. -/
theorem op_poll_no_samples (ticks_to_secs : ticks_t → Secs) (rng : Nat → Int) (op : op_t)
    (a : poll_args Secs) (h : a.samples_count_inout = none ∨ a.samples_out = none) :
    op_poll ticks_to_secs rng op a = Except.ok
      { op := op
        mem :=
          { queries_out := a.queries_out.map (fun _ => op.stats.queries)
            worstlatency_out :=
              a.worstlatency_out.map (fun _ => ticks_to_secs op.stats.worst_latency)
            samples_count_inout := a.samples_count_inout
            samples_out := a.samples_out }
        rolls := 0
        log := [] } := by
  obtain ⟨q, w, c, b⟩ := a
  cases c <;> cases b <;> simp_all [op_poll]

theorem size_nonneg (stats : query_stats_t) : 0 ≤ stats.latency_samples.size := by
  simp [reservoir_sample_t.size]

/-! ## Uniform draws -/

theorem range_sum_below (g : Int → ℚ) (x : ℚ) (d : Nat) :
    ∀ n : Nat, n ≤ d → (∀ r : Nat, r < d → g (r : Int) = x) →
      ((List.range n).map (fun j : Nat => g (0 + (j : Int)))).sum = (n : ℚ) * x := by
  intro n
  induction n with
  | zero => intro _ _; simp
  | succ n ih =>
    intro hn hx
    rw [List.range_succ, List.map_append, List.sum_append, ih (by omega) hx]
    simp only [List.map_cons, List.map_nil, List.sum_cons, List.sum_nil, zero_add, add_zero]
    rw [hx n (by omega)]
    push_cast
    ring

theorem range_sum_threshold (g : Int → ℚ) (x y : ℚ) (d : Nat)
    (hx : ∀ r : Nat, r < d → g (r : Int) = x) :
    ∀ n : Nat, d ≤ n → (∀ r : Nat, d ≤ r → r < n → g (r : Int) = y) →
      ((List.range n).map (fun j : Nat => g (0 + (j : Int)))).sum
        = (d : ℚ) * x + ((n : ℚ) - (d : ℚ)) * y := by
  intro n
  induction n with
  | zero =>
    intro hd _
    have : d = 0 := by omega
    subst this
    simp
  | succ n ih =>
    intro hd hy
    by_cases hdn : d = n + 1
    · rw [range_sum_below g x d (n + 1) (by omega) hx, hdn]
      push_cast
      ring
    · rw [List.range_succ, List.map_append, List.sum_append,
        ih (by omega) (fun r h1 h2 => hy r h1 (by omega))]
      simp only [List.map_cons, List.map_nil, List.sum_cons, List.sum_nil, zero_add, add_zero]
      rw [hy n (by omega) (by omega)]
      push_cast
      ring

/-- Mean over a uniform draw from `[0, h-1]` of a quantity that only depends on whether the draw
is below the threshold `d`. -/
theorem uniform_mean_threshold (h d : Int) (hd : 0 ≤ d) (hdh : d ≤ h) (g : Int → ℚ) (x y : ℚ)
    (hx : ∀ r : Int, 0 ≤ r → r < d → g r = x)
    (hy : ∀ r : Int, d ≤ r → r < h → g r = y) :
    uniform_mean 0 (h - 1) g = ((d : ℚ) * x + ((h : ℚ) - (d : ℚ)) * y) / (h : ℚ) := by
  unfold uniform_mean
  have e : h - 1 - 0 + 1 = h := by ring
  rw [e]
  rw [range_sum_threshold g x y d.toNat (fun r hr => hx r (by omega) (by omega)) h.toNat
    (by omega) (fun r h1 h2 => hy r (by omega) (by omega))]
  have e1 : ((d.toNat : Nat) : ℚ) = (d : ℚ) := by
    have : ((d.toNat : Nat) : Int) = d := by omega
    exact_mod_cast this
  have e2 : ((h.toNat : Nat) : ℚ) = (h : ℚ) := by
    have : ((h.toNat : Nat) : Int) = h := by omega
    exact_mod_cast this
  rw [e1, e2]

theorem delivered_take (ticks_to_secs : ticks_t → Secs) (roll : Int) (t : ticks_t)
    (s : poll_loop_t Secs) (i : Int) :
    delivered i (take_sample ticks_to_secs roll t s).log
      = (decide (i = s.samples_we_have - 1) || delivered i s.log) := by
  simp [delivered, delivered_positions_take]

theorem delivered_skip (roll : Int) (s : poll_loop_t Secs) (i : Int) :
    delivered i (skip_sample roll s).log = delivered i s.log := by
  simp [delivered, delivered_positions_skip]

/-! ## Inclusion probability -/

theorem poll_loop_expect_exit (ticks_to_secs : ticks_t → Secs) (stats : query_stats_t)
    (f : poll_loop_t Secs → ℚ) (fuel : Nat) (s : poll_loop_t Secs)
    (h : ¬ s.samples_we_need > 0) :
    poll_loop_expect ticks_to_secs stats f fuel s = f s := by
  cases fuel <;> simp [poll_loop_expect, h]

/-- Arithmetic of an iteration that takes every remaining sample (`h = d`). -/
theorem inclusion_step_full (h d i : Int) (D : Bool) (hd : 0 < d) (he : h = d) :
    (if (decide (i = h - 1) || D) = true then (1 : ℚ)
      else if 0 ≤ i ∧ i < h - 1 then ((d - 1 : Int) : ℚ) / ((h - 1 : Int) : ℚ) else 0)
    = if D = true then 1 else if 0 ≤ i ∧ i < h then (d : ℚ) / (h : ℚ) else 0 := by
  subst he
  have hq : (h : ℚ) ≠ 0 := by
    have : h ≠ 0 := by omega
    exact_mod_cast this
  cases D with
  | true => simp
  | false =>
    by_cases hi : i = h - 1
    · have hr : 0 ≤ i ∧ i < h := by omega
      rw [if_pos (by simp [hi]), if_neg (by simp), if_pos hr, div_self hq]
    · by_cases hr : 0 ≤ i ∧ i < h
      · have hr3 : 0 ≤ i ∧ i < h - 1 := by omega
        have hq1 : ((h - 1 : Int) : ℚ) ≠ 0 := by
          have : h - 1 ≠ 0 := by omega
          exact_mod_cast this
        rw [if_neg (by simp [hi]), if_pos hr3, if_neg (by simp), if_pos hr, div_self hq,
          div_self hq1]
      · have hr3 : ¬ (0 ≤ i ∧ i < h - 1) := by omega
        rw [if_neg (by simp [hi]), if_neg hr3, if_neg (by simp), if_neg hr]

/-- Arithmetic of an iteration that rolls the die (`d < h`): `d` of the `h` draws take the
sample, the other `h - d` skip it. -/
theorem inclusion_step_die (h d i : Int) (D : Bool) (hd : 0 < d) (hlt : d < h) :
    ((d : ℚ) * (if (decide (i = h - 1) || D) = true then (1 : ℚ)
        else if 0 ≤ i ∧ i < h - 1 then ((d - 1 : Int) : ℚ) / ((h - 1 : Int) : ℚ) else 0)
      + ((h : ℚ) - (d : ℚ)) * (if D = true then (1 : ℚ)
        else if 0 ≤ i ∧ i < h - 1 then (d : ℚ) / ((h - 1 : Int) : ℚ) else 0)) / (h : ℚ)
    = if D = true then 1 else if 0 ≤ i ∧ i < h then (d : ℚ) / (h : ℚ) else 0 := by
  have hq : (h : ℚ) ≠ 0 := by
    have : h ≠ 0 := by omega
    exact_mod_cast this
  cases D with
  | true =>
    rw [if_pos (by simp), if_pos rfl, if_pos rfl]
    field_simp
  | false =>
    by_cases hi : i = h - 1
    · have hr : 0 ≤ i ∧ i < h := by omega
      have hr3 : ¬ (0 ≤ i ∧ i < h - 1) := by omega
      rw [if_pos (by simp [hi]), if_neg (by simp), if_neg hr3, if_neg (by simp), if_pos hr]
      ring
    · by_cases hr : 0 ≤ i ∧ i < h
      · have hr3 : 0 ≤ i ∧ i < h - 1 := by omega
        have hq1 : ((h - 1 : Int) : ℚ) ≠ 0 := by
          have : h - 1 ≠ 0 := by omega
          exact_mod_cast this
        rw [if_neg (by simp [hi]), if_pos hr3, if_neg (by simp), if_pos hr3, if_neg (by simp),
          if_pos hr]
        push_cast at hq1 ⊢
        field_simp
        ring
      · have hr3 : ¬ (0 ≤ i ∧ i < h - 1) := by omega
        rw [if_neg (by simp [hi]), if_neg hr3, if_neg (by simp), if_neg hr3, if_neg (by simp),
          if_neg hr]
        simp

/-- The probability that stored position `i` is in the log at loop exit, from any loop state: `1`
if it is delivered already, `samples_we_need / samples_we_have` if it is still ahead of the
backward scan, and `0` if the scan has passed it. -/
theorem poll_loop_expect_delivered (ticks_to_secs : ticks_t → Secs) (stats : query_stats_t)
    (i : Int) (fuel : Nat) :
    ∀ s : poll_loop_t Secs, 0 ≤ s.samples_we_need → s.samples_we_need ≤ s.samples_we_have →
      s.samples_we_have ≤ stats.latency_samples.size → s.samples_we_have.toNat ≤ fuel →
      poll_loop_expect ticks_to_secs stats (fun s => if delivered i s.log then 1 else 0) fuel s
        = if delivered i s.log = true then 1
          else if 0 ≤ i ∧ i < s.samples_we_have then
            (s.samples_we_need : ℚ) / (s.samples_we_have : ℚ)
          else 0 := by
  induction fuel with
  | zero =>
    intro s h0 h1 h2 hf
    have hn : s.samples_we_need = 0 := by omega
    rw [poll_loop_expect_exit _ _ _ _ _ (by omega)]
    simp [hn]
  | succ fuel ih =>
    intro s h0 h1 h2 hf
    by_cases hn : s.samples_we_need > 0
    · by_cases he : s.samples_we_have = s.samples_we_need
      · -- every remaining sample is taken, no die
        have hr : rolls_die s.samples_we_have s.samples_we_need = false := by
          simp [rolls_die, he]
        obtain ⟨t, _, hb⟩ := loop_body_take ticks_to_secs stats 0 s hn h1 h2 (Or.inl he)
        have hstep : poll_loop_expect ticks_to_secs stats
            (fun s => if delivered i s.log then 1 else 0) (fuel + 1) s
            = poll_loop_expect ticks_to_secs stats
              (fun s => if delivered i s.log then 1 else 0) fuel
              (take_sample ticks_to_secs 0 t s) := by
          simp [poll_loop_expect, hn, hr, hb]
        rw [hstep, ih _ (by simp only [take_sample]; omega) (by simp only [take_sample]; omega)
          (by simp only [take_sample]; omega) (by simp only [take_sample]; omega),
          delivered_take]
        exact inclusion_step_full s.samples_we_have s.samples_we_need i (delivered i s.log) hn he
      · -- the die decides
        have hlt : s.samples_we_need < s.samples_we_have := by omega
        have hr : rolls_die s.samples_we_have s.samples_we_need = true := by
          simp [rolls_die, he, hlt]
        have hstep : poll_loop_expect ticks_to_secs stats
            (fun s => if delivered i s.log then 1 else 0) (fuel + 1) s
            = uniform_mean 0 (s.samples_we_have - 1) (fun roll =>
                match loop_body ticks_to_secs stats roll s with
                | Except.ok s' => poll_loop_expect ticks_to_secs stats
                    (fun s => if delivered i s.log then 1 else 0) fuel s'
                | Except.error _ => 0) := by
          simp [poll_loop_expect, hn, hr]
        rw [hstep]
        rw [uniform_mean_threshold s.samples_we_have s.samples_we_need h0 h1 _
          (if (decide (i = s.samples_we_have - 1) || delivered i s.log) = true then 1
            else if 0 ≤ i ∧ i < s.samples_we_have - 1 then
              ((s.samples_we_need - 1 : Int) : ℚ) / ((s.samples_we_have - 1 : Int) : ℚ)
            else 0)
          (if delivered i s.log = true then 1
            else if 0 ≤ i ∧ i < s.samples_we_have - 1 then
              (s.samples_we_need : ℚ) / ((s.samples_we_have - 1 : Int) : ℚ)
            else 0)
          ?_ ?_]
        · exact inclusion_step_die s.samples_we_have s.samples_we_need i (delivered i s.log)
            hn hlt
        · intro r _ hrd
          obtain ⟨t, _, hb⟩ := loop_body_take ticks_to_secs stats r s hn h1 h2 (Or.inr hrd)
          simp only [hb]
          rw [ih _ (by simp only [take_sample]; omega) (by simp only [take_sample]; omega)
            (by simp only [take_sample]; omega) (by simp only [take_sample]; omega),
            delivered_take]
          rfl
        · intro r hrd _
          have hb := loop_body_skip ticks_to_secs stats r s hlt (by omega)
          simp only [hb]
          rw [ih _ (by simp only [skip_sample]; omega) (by simp only [skip_sample]; omega)
            (by simp only [skip_sample]; omega) (by simp only [skip_sample]; omega),
            delivered_skip]
          rfl
    · have hz : s.samples_we_need = 0 := by omega
      rw [poll_loop_expect_exit _ _ _ _ _ hn]
      simp [hz]

/-! ## Sublist, counting -/

/-- The delivered samples, read off the buffer in slot order, are a sublist of the converted
stored samples that the backward scan has not passed when the loop is entered. -/
theorem poll_loop_sublist (ticks_to_secs : ticks_t → Secs) (stats : query_stats_t)
    (rng : Nat → Int) (fuel : Nat) (s : poll_loop_t Secs)
    (h0 : 0 ≤ s.samples_we_have) (h1 : s.samples_we_need ≤ s.samples_we_have)
    (h2 : s.samples_we_have ≤ stats.latency_samples.size)
    (hf : s.samples_we_have.toNat ≤ fuel) :
    ∃ s'', poll_loop ticks_to_secs stats rng fuel s = Except.ok s'' ∧
      s''.samples_we_need ≤ 0 ∧
      (∀ j : Int, j < 0 ∨ s.samples_we_need ≤ j → s''.samples_out j = s.samples_out j) ∧
      List.Sublist
        ((List.range s.samples_we_need.toNat).map (fun j : Nat => s''.samples_out (j : Int)))
        ((stats.latency_samples.samples.take s.samples_we_have.toNat).map ticks_to_secs) := by
  refine poll_loop_induction ticks_to_secs stats rng
    (fun s s'' =>
      (∀ j : Int, j < 0 ∨ s.samples_we_need ≤ j → s''.samples_out j = s.samples_out j) ∧
      List.Sublist
        ((List.range s.samples_we_need.toNat).map (fun j : Nat => s''.samples_out (j : Int)))
        ((stats.latency_samples.samples.take s.samples_we_have.toNat).map ticks_to_secs))
    ?_ ?_ ?_ fuel s h0 h1 h2 hf
  · intro s hn _ _
    have hz : s.samples_we_need.toNat = 0 := by omega
    refine ⟨fun _ _ => rfl, ?_⟩
    simp [hz]
  · intro s s'' t hn hle _ _ hread _ ih
    obtain ⟨hframe, hsub⟩ := ih
    simp only [take_sample] at hframe hsub
    have hlast : s''.samples_out (s.samples_we_need - 1) = ticks_to_secs t := by
      rw [hframe _ (Or.inr (le_refl _))]
      simp
    refine ⟨?_, ?_⟩
    · intro j hj
      rw [hframe j (by omega)]
      have : j ≠ s.samples_we_need - 1 := by omega
      simp [Function.update, this]
    · have eh : s.samples_we_have.toNat = (s.samples_we_have - 1).toNat + 1 := by omega
      have ec : (((s.samples_we_need - 1).toNat : Nat) : Int) = s.samples_we_need - 1 := by omega
      rw [range_toNat_pred _ hn, eh, List.take_succ, hread]
      simp only [List.map_append, List.map_cons, List.map_nil, Option.toList, ec, hlast]
      exact List.Sublist.append hsub (List.Sublist.refl _)
  · intro s s'' hn hlt _ _ _ ih
    obtain ⟨hframe, hsub⟩ := ih
    simp only [skip_sample] at hframe hsub
    refine ⟨hframe, hsub.trans ?_⟩
    exact List.Sublist.map _ (List.take_sublist_take_left _ (by omega))

theorem count_range_cast (m : Nat) (j : Int) :
    ((List.range m).map Int.ofNat).count j = if 0 ≤ j ∧ j < (m : Int) then 1 else 0 := by
  have hnd : ((List.range m).map Int.ofNat).Nodup :=
    List.Nodup.map_on (fun x _ y _ h => by simpa using h) (List.nodup_range m)
  rw [List.count_eq_of_nodup hnd]
  have : j ∈ (List.range m).map Int.ofNat ↔ 0 ≤ j ∧ j < (m : Int) := by
    simp only [List.mem_map, List.mem_range, Int.ofNat_eq_coe]
    constructor
    · rintro ⟨a, ha, rfl⟩
      omega
    · intro h
      exact ⟨j.toNat, by omega, by omega⟩
  simp only [this]

theorem loop_entry_have (stats : query_stats_t) (k : Int) (buf : Int → Secs) :
    (loop_entry stats k buf).samples_we_have = stats.latency_samples.size := rfl

theorem loop_entry_need (stats : query_stats_t) (k : Int) (buf : Int → Secs) :
    (loop_entry stats k buf).samples_we_need = min stats.latency_samples.size k := rfl

/-! ## Stores recorded in the log and the buffer -/

theorem apply_stores_take (ticks_to_secs : ticks_t → Secs) (stats : query_stats_t) (roll : Int)
    (t : ticks_t) (s : poll_loop_t Secs) (b0 : Int → Secs)
    (hread : stats.latency_samples.read (s.samples_we_have - 1) = some t)
    (h : s.samples_out = apply_stores ticks_to_secs stats s.log b0) :
    (take_sample ticks_to_secs roll t s).samples_out
      = apply_stores ticks_to_secs stats (take_sample ticks_to_secs roll t s).log b0 := by
  simp only [take_sample, observe, apply_stores, iteration_t.stored_index,
    iteration_t.output_index, if_true, hread, h]

theorem apply_stores_skip (ticks_to_secs : ticks_t → Secs) (stats : query_stats_t) (roll : Int)
    (s : poll_loop_t Secs) (b0 : Int → Secs)
    (h : s.samples_out = apply_stores ticks_to_secs stats s.log b0) :
    (skip_sample roll s).samples_out
      = apply_stores ticks_to_secs stats (skip_sample roll s).log b0 := by
  simp [skip_sample, observe, apply_stores, h]

theorem read_of_getElem (stats : query_stats_t) (i : Int) (t : ticks_t) (h0 : 0 ≤ i)
    (h : stats.latency_samples.samples[i.toNat]? = some t) :
    stats.latency_samples.read i = some t := by
  simp [reservoir_sample_t.read, h0, h]

/-- The buffer at loop exit is the buffer `b0` with the stores of the log performed, as soon as
this holds when the loop is entered: the log records exactly the stores made. -/
theorem poll_loop_replay (ticks_to_secs : ticks_t → Secs) (stats : query_stats_t)
    (rng : Nat → Int) (b0 : Int → Secs) (fuel : Nat) (s : poll_loop_t Secs)
    (h0 : 0 ≤ s.samples_we_have) (h1 : s.samples_we_need ≤ s.samples_we_have)
    (h2 : s.samples_we_have ≤ stats.latency_samples.size)
    (hf : s.samples_we_have.toNat ≤ fuel) :
    ∃ s'', poll_loop ticks_to_secs stats rng fuel s = Except.ok s'' ∧
      s''.samples_we_need ≤ 0 ∧
      (s.samples_out = apply_stores ticks_to_secs stats s.log b0 →
        s''.samples_out = apply_stores ticks_to_secs stats s''.log b0) := by
  refine poll_loop_induction ticks_to_secs stats rng
    (fun s s'' => s.samples_out = apply_stores ticks_to_secs stats s.log b0 →
        s''.samples_out = apply_stores ticks_to_secs stats s''.log b0)
    ?_ ?_ ?_ fuel s h0 h1 h2 hf
  · intro s _ _ _ h
    exact h
  · intro s s'' t hn _ _ _ hread _ ih h
    exact ih (apply_stores_take ticks_to_secs stats _ t s b0
      (read_of_getElem stats _ t (by omega) hread) h)
  · intro s s'' _ _ _ _ _ ih h
    exact ih (apply_stores_skip ticks_to_secs stats _ s b0 h)

/-- Every store recorded in the log is in the buffer at loop exit: the slot an iteration stored
to still holds the converted stored sample that the iteration read. -/
theorem poll_loop_stores (ticks_to_secs : ticks_t → Secs) (stats : query_stats_t)
    (rng : Nat → Int) (fuel : Nat) (s : poll_loop_t Secs)
    (h0 : 0 ≤ s.samples_we_have) (h1 : s.samples_we_need ≤ s.samples_we_have)
    (h2 : s.samples_we_have ≤ stats.latency_samples.size)
    (hf : s.samples_we_have.toNat ≤ fuel) :
    ∃ s'', poll_loop ticks_to_secs stats rng fuel s = Except.ok s'' ∧
      s''.samples_we_need ≤ 0 ∧
      (∀ j : Int, j < 0 ∨ s.samples_we_need ≤ j → s''.samples_out j = s.samples_out j) ∧
      ∃ new, s''.log = new ++ s.log ∧
        ∀ it ∈ new, it.take_this_sample = true →
          0 ≤ it.output_index ∧ it.output_index < s.samples_we_need ∧
          ∃ t, stats.latency_samples.read it.stored_index = some t ∧
            s''.samples_out it.output_index = ticks_to_secs t := by
  refine poll_loop_induction ticks_to_secs stats rng
    (fun s s'' =>
      (∀ j : Int, j < 0 ∨ s.samples_we_need ≤ j → s''.samples_out j = s.samples_out j) ∧
      ∃ new, s''.log = new ++ s.log ∧
        ∀ it ∈ new, it.take_this_sample = true →
          0 ≤ it.output_index ∧ it.output_index < s.samples_we_need ∧
          ∃ t, stats.latency_samples.read it.stored_index = some t ∧
            s''.samples_out it.output_index = ticks_to_secs t)
    ?_ ?_ ?_ fuel s h0 h1 h2 hf
  · intro s _ _ _
    exact ⟨fun _ _ => rfl, [], by simp, by simp⟩
  · intro s s'' t hn hle _ _ hread _ ih
    obtain ⟨hframe, new, hlog, hnew⟩ := ih
    simp only [take_sample] at hframe
    have hlast : s''.samples_out (s.samples_we_need - 1) = ticks_to_secs t := by
      rw [hframe _ (Or.inr (le_refl _))]
      simp
    refine ⟨?_, new ++ [⟨s.samples_we_have, s.samples_we_need,
      if rolls_die s.samples_we_have s.samples_we_need then some (rng s.rolls) else none, true⟩],
      ?_, ?_⟩
    · intro j hj
      rw [hframe j (by omega)]
      have : j ≠ s.samples_we_need - 1 := by omega
      simp [Function.update, this]
    · rw [hlog]; simp [take_sample, observe]
    · intro it hit htake
      rcases List.mem_append.mp hit with h | h
      · obtain ⟨a1, a2, t', a3, a4⟩ := hnew it h htake
        simp only [take_sample] at a2
        exact ⟨a1, by omega, t', a3, a4⟩
      · simp only [List.mem_singleton] at h
        subst h
        simp only [iteration_t.output_index, iteration_t.stored_index]
        exact ⟨by omega, by omega, t, read_of_getElem stats _ t (by omega) hread, hlast⟩
  · intro s s'' hn hlt _ _ _ ih
    obtain ⟨hframe, new, hlog, hnew⟩ := ih
    simp only [skip_sample] at hframe
    refine ⟨hframe, new ++ [⟨s.samples_we_have, s.samples_we_need,
      if rolls_die s.samples_we_have s.samples_we_need then some (rng s.rolls) else none,
      false⟩], ?_, ?_⟩
    · rw [hlog]; simp [skip_sample, observe]
    · intro it hit htake
      rcases List.mem_append.mp hit with h | h
      · obtain ⟨a1, a2, t', a3, a4⟩ := hnew it h htake
        simp only [skip_sample] at a2
        exact ⟨a1, a2, t', a3, a4⟩
      · simp only [List.mem_singleton] at h
        subst h
        simp at htake

/-! ## Runs against a given sequence of `xrandom` results -/

theorem loop_body_rolls (ticks_to_secs : ticks_t → Secs) (stats : query_stats_t) (roll : Int)
    (s s' : poll_loop_t Secs) (hb : loop_body ticks_to_secs stats roll s = Except.ok s') :
    s'.rolls = if rolls_die s.samples_we_have s.samples_we_need then s.rolls + 1 else s.rolls := by
  unfold loop_body at hb
  split at hb
  · cases hb
  · split at hb
    · cases hb
    · cases hb
      rfl
  · cases hb
    rfl

/-- An iteration that does not roll the die does not depend on the `xrandom` result. -/
theorem loop_body_no_roll (ticks_to_secs : ticks_t → Secs) (stats : query_stats_t)
    (roll roll' : Int) (s : poll_loop_t Secs)
    (h : rolls_die s.samples_we_have s.samples_we_need = false) :
    loop_body ticks_to_secs stats roll s = loop_body ticks_to_secs stats roll' s := by
  simp only [rolls_die, decide_eq_false_iff_not] at h
  by_cases he : s.samples_we_have = s.samples_we_need
  · exact loop_body_full ticks_to_secs stats roll roll' s he.symm
  · have hlt : ¬ s.samples_we_have > s.samples_we_need := fun hgt => h ⟨he, hgt⟩
    simp [loop_body, take_this_sample, he, hlt]

/-- A run of the loop only looks at the `xrandom` results from call number `s.rolls` on. -/
theorem poll_loop_rng_congr (ticks_to_secs : ticks_t → Secs) (stats : query_stats_t)
    (fuel : Nat) :
    ∀ (s : poll_loop_t Secs) (rng rng' : Nat → Int), (∀ j, s.rolls ≤ j → rng j = rng' j) →
      poll_loop ticks_to_secs stats rng fuel s = poll_loop ticks_to_secs stats rng' fuel s := by
  induction fuel with
  | zero =>
    intro s rng rng' _
    by_cases hn : s.samples_we_need > 0
    · simp [poll_loop, hn]
    · rw [poll_loop_exit _ _ _ _ _ hn, poll_loop_exit _ _ _ _ _ hn]
  | succ fuel ih =>
    intro s rng rng' h
    by_cases hn : s.samples_we_need > 0
    · have e : rng s.rolls = rng' s.rolls := h _ (le_refl _)
      cases hb : loop_body ticks_to_secs stats (rng s.rolls) s with
      | error f =>
        have hb' : loop_body ticks_to_secs stats (rng' s.rolls) s = Except.error f := by
          rw [← e, hb]
        simp [poll_loop, hn, hb, hb']
      | ok s' =>
        have hb' : loop_body ticks_to_secs stats (rng' s.rolls) s = Except.ok s' := by
          rw [← e, hb]
        rw [poll_loop_iterate _ _ _ _ _ _ hn hb, poll_loop_iterate _ _ _ _ _ _ hn hb']
        apply ih
        intro j hj
        apply h
        have := loop_body_rolls ticks_to_secs stats _ s s' hb
        split at this <;> omega
    · rw [poll_loop_exit _ _ _ _ _ hn, poll_loop_exit _ _ _ _ _ hn]

/-! ## The law of the `xrandom` results and the expectation over runs -/

theorem sum_map_flatMap {α β : Type} (l : List α) (F : α → List β) (g : β → ℚ) :
    ((l.flatMap F).map g).sum = (l.map (fun a => ((F a).map g).sum)).sum := by
  induction l with
  | nil => simp
  | cons a l ih => simp [List.flatMap_cons, List.sum_append, ih]

theorem sum_map_div {α : Type} (l : List α) (g : α → ℚ) (c : ℚ) :
    (l.map (fun a => g a / c)).sum = (l.map g).sum / c := by
  induction l with
  | nil => simp
  | cons a l ih => simp [ih, add_div]

theorem uniform_mean_range (lo hi : Int) (g : Int → ℚ) :
    uniform_mean lo hi g = ((xrandom_range lo hi).map g).sum / ((hi - lo + 1 : Int) : ℚ) := by
  simp [uniform_mean, xrandom_range, List.map_map, Function.comp_def]

theorem results_from_head (c : Nat) (r : Int) (rs : List Int) :
    results_from c (r :: rs) c = r := by
  simp [results_from]

theorem results_from_tail (c : Nat) (r : Int) (rs : List Int) (j : Nat) (h : c + 1 ≤ j) :
    results_from c (r :: rs) j = results_from (c + 1) rs j := by
  have e : j - c = (j - (c + 1)) + 1 := by omega
  simp [results_from, e]

/-- Averaging a quantity of the real run `poll_loop` over the law `xrandom_sequences` of the
`xrandom` results gives `poll_loop_expect`. -/
theorem xrandom_sequences_expect (ticks_to_secs : ticks_t → Secs) (stats : query_stats_t)
    (f : poll_loop_t Secs → ℚ) (fuel : Nat) :
    ∀ s : poll_loop_t Secs,
      ((xrandom_sequences ticks_to_secs stats fuel s).map (fun x =>
        x.2 * outcome_value f
          (poll_loop ticks_to_secs stats (results_from s.rolls x.1) fuel s))).sum
        = poll_loop_expect ticks_to_secs stats f fuel s := by
  induction fuel with
  | zero =>
    intro s
    by_cases hn : s.samples_we_need > 0
    · simp [xrandom_sequences, poll_loop_expect, hn]
    · rw [poll_loop_expect_exit _ _ _ _ _ hn]
      simp [xrandom_sequences, hn, poll_loop_exit _ _ _ _ _ hn, outcome_value]
  | succ fuel ih =>
    intro s
    by_cases hn : s.samples_we_need > 0
    · by_cases hr : rolls_die s.samples_we_have s.samples_we_need = true
      · have hlaw : xrandom_sequences ticks_to_secs stats (fuel + 1) s
            = (xrandom_range 0 (s.samples_we_have - 1)).flatMap (fun roll =>
                match loop_body ticks_to_secs stats roll s with
                | Except.ok s' =>
                  (xrandom_sequences ticks_to_secs stats fuel s').map
                    (fun x => (roll :: x.1, x.2 / (s.samples_we_have : ℚ)))
                | Except.error _ => []) := by
          simp [xrandom_sequences, hn, hr]
        have hexp : poll_loop_expect ticks_to_secs stats f (fuel + 1) s
            = uniform_mean 0 (s.samples_we_have - 1) (fun roll =>
                match loop_body ticks_to_secs stats roll s with
                | Except.ok s' => poll_loop_expect ticks_to_secs stats f fuel s'
                | Except.error _ => 0) := by
          simp [poll_loop_expect, hn, hr]
        rw [hlaw, hexp, sum_map_flatMap, uniform_mean_range, ← sum_map_div]
        have e : ((s.samples_we_have - 1 - 0 + 1 : Int) : ℚ) = (s.samples_we_have : ℚ) := by
          congr 1
          ring
        rw [e]
        congr 1
        apply List.map_congr_left
        intro roll _
        cases hb : loop_body ticks_to_secs stats roll s with
        | error g => simp
        | ok s' =>
          simp only [List.map_map, Function.comp_def]
          rw [← ih s', ← sum_map_div]
          congr 1
          apply List.map_congr_left
          intro x _
          have hroll := loop_body_rolls ticks_to_secs stats roll s s' hb
          rw [hr, if_pos rfl] at hroll
          have hb' : loop_body ticks_to_secs stats (results_from s.rolls (roll :: x.1) s.rolls) s
              = Except.ok s' := by
            rw [results_from_head, hb]
          rw [poll_loop_iterate _ _ _ _ _ _ hn hb',
            poll_loop_rng_congr ticks_to_secs stats fuel s' (results_from s.rolls (roll :: x.1))
              (results_from s'.rolls x.1)
              (fun j hj => by rw [hroll] at hj ⊢; exact results_from_tail _ _ _ _ hj)]
          ring
      · have hr' : rolls_die s.samples_we_have s.samples_we_need = false := by
          simpa using hr
        have hlaw : xrandom_sequences ticks_to_secs stats (fuel + 1) s
            = match loop_body ticks_to_secs stats 0 s with
              | Except.ok s' => xrandom_sequences ticks_to_secs stats fuel s'
              | Except.error _ => [] := by
          simp [xrandom_sequences, hn, hr']
        have hexp : poll_loop_expect ticks_to_secs stats f (fuel + 1) s
            = match loop_body ticks_to_secs stats 0 s with
              | Except.ok s' => poll_loop_expect ticks_to_secs stats f fuel s'
              | Except.error _ => 0 := by
          simp [poll_loop_expect, hn, hr']
        rw [hlaw, hexp]
        cases hb : loop_body ticks_to_secs stats 0 s with
        | error g => simp
        | ok s' =>
          simp only
          rw [← ih s']
          congr 1
          apply List.map_congr_left
          intro x _
          have hroll := loop_body_rolls ticks_to_secs stats 0 s s' hb
          rw [hr'] at hroll
          simp only [Bool.false_eq_true, if_false] at hroll
          have hb' : loop_body ticks_to_secs stats (results_from s.rolls x.1 s.rolls) s
              = Except.ok s' := by
            rw [loop_body_no_roll ticks_to_secs stats _ 0 s hr', hb]
          rw [poll_loop_iterate _ _ _ _ _ _ hn hb', hroll]
    · rw [poll_loop_expect_exit _ _ _ _ _ hn]
      simp [xrandom_sequences, hn, poll_loop_exit _ _ _ _ _ hn, outcome_value]

/-- From a loop state within the stored samples the loop exits with probability `1`. -/
theorem poll_loop_expect_one (ticks_to_secs : ticks_t → Secs) (stats : query_stats_t)
    (fuel : Nat) :
    ∀ s : poll_loop_t Secs, 0 ≤ s.samples_we_need → s.samples_we_need ≤ s.samples_we_have →
      s.samples_we_have ≤ stats.latency_samples.size → s.samples_we_have.toNat ≤ fuel →
      poll_loop_expect ticks_to_secs stats (fun _ => 1) fuel s = 1 := by
  induction fuel with
  | zero =>
    intro s h0 h1 h2 hf
    exact poll_loop_expect_exit _ _ _ _ _ (by omega)
  | succ fuel ih =>
    intro s h0 h1 h2 hf
    by_cases hn : s.samples_we_need > 0
    · by_cases he : s.samples_we_have = s.samples_we_need
      · have hr : rolls_die s.samples_we_have s.samples_we_need = false := by
          simp [rolls_die, he]
        obtain ⟨t, _, hb⟩ := loop_body_take ticks_to_secs stats 0 s hn h1 h2 (Or.inl he)
        have hstep : poll_loop_expect ticks_to_secs stats (fun _ => 1) (fuel + 1) s
            = poll_loop_expect ticks_to_secs stats (fun _ => 1) fuel
              (take_sample ticks_to_secs 0 t s) := by
          simp [poll_loop_expect, hn, hr, hb]
        rw [hstep]
        exact ih _ (by simp only [take_sample]; omega) (by simp only [take_sample]; omega)
          (by simp only [take_sample]; omega) (by simp only [take_sample]; omega)
      · have hlt : s.samples_we_need < s.samples_we_have := by omega
        have hr : rolls_die s.samples_we_have s.samples_we_need = true := by
          simp [rolls_die, he, hlt]
        have hstep : poll_loop_expect ticks_to_secs stats (fun _ => 1) (fuel + 1) s
            = uniform_mean 0 (s.samples_we_have - 1) (fun roll =>
                match loop_body ticks_to_secs stats roll s with
                | Except.ok s' => poll_loop_expect ticks_to_secs stats (fun _ => 1) fuel s'
                | Except.error _ => 0) := by
          simp [poll_loop_expect, hn, hr]
        have hq : (s.samples_we_have : ℚ) ≠ 0 := by
          have : s.samples_we_have ≠ 0 := by omega
          exact_mod_cast this
        rw [hstep, uniform_mean_threshold s.samples_we_have s.samples_we_need h0 h1 _ 1 1]
        · field_simp
        · intro r _ hrd
          obtain ⟨t, _, hb⟩ := loop_body_take ticks_to_secs stats r s hn h1 h2 (Or.inr hrd)
          simp only [hb]
          exact ih _ (by simp only [take_sample]; omega) (by simp only [take_sample]; omega)
            (by simp only [take_sample]; omega) (by simp only [take_sample]; omega)
        · intro r hrd _
          have hb := loop_body_skip ticks_to_secs stats r s hlt (by omega)
          simp only [hb]
          exact ih _ (by simp only [skip_sample]; omega) (by simp only [skip_sample]; omega)
            (by simp only [skip_sample]; omega) (by simp only [skip_sample]; omega)
    · exact poll_loop_expect_exit _ _ _ _ _ hn

/-! ## The claims -/

/-- What `op_poll` does to the caller's buffer, and how the log records it: the returned buffer
is the caller's buffer with the logged stores performed, the logged stores go to the slots
`0, ..., min(n,k)-1` (newest first), every logged store is still in the returned buffer, the
slots below `min(n,k)` hold converted stored samples and all other slots are unchanged. -/
theorem op_poll_stores (ticks_to_secs : ticks_t → Secs) (rng : Nat → Int) (op : op_t)
    (q : Option Int) (w : Option Secs) (k : Int) (buf : Int → Secs) :
    ∃ r out, op_poll ticks_to_secs rng op ⟨q, w, some k, some buf⟩ = Except.ok r ∧
      r.mem.samples_count_inout = some (min op.stats.latency_samples.size k) ∧
      r.mem.samples_out = some out ∧
      out = apply_stores ticks_to_secs op.stats r.log buf ∧
      written_slots r.log
        = (List.range (min op.stats.latency_samples.size k).toNat).map Int.ofNat ∧
      (∀ it ∈ taken r.log, ∃ t, op.stats.latency_samples.read it.stored_index = some t ∧
        out it.output_index = ticks_to_secs t) ∧
      (∀ j : Int, 0 ≤ j → j < min op.stats.latency_samples.size k →
        ∃ t ∈ op.stats.latency_samples.samples, out j = ticks_to_secs t) ∧
      (∀ j : Int, j < 0 ∨ min op.stats.latency_samples.size k ≤ j → out j = buf j) := by
  obtain ⟨s1, hs1, _, hw⟩ := poll_loop_written_slots ticks_to_secs op.stats rng
    op.stats.latency_samples.size.toNat (loop_entry op.stats k buf) (size_nonneg _)
    (min_le_left _ _) (le_refl _) (le_refl _)
  obtain ⟨s2, hs2, _, hrep⟩ := poll_loop_replay ticks_to_secs op.stats rng buf
    op.stats.latency_samples.size.toNat (loop_entry op.stats k buf) (size_nonneg _)
    (min_le_left _ _) (le_refl _) (le_refl _)
  obtain ⟨s3, hs3, _, hframe, new, hlog, hnew⟩ := poll_loop_stores ticks_to_secs op.stats rng
    op.stats.latency_samples.size.toNat (loop_entry op.stats k buf) (size_nonneg _)
    (min_le_left _ _) (le_refl _) (le_refl _)
  obtain ⟨s4, hs4, _, _, f, _, hval, _⟩ := poll_loop_delivers ticks_to_secs op.stats rng
    op.stats.latency_samples.size.toNat (loop_entry op.stats k buf) (size_nonneg _)
    (min_le_left _ _) (le_refl _) (le_refl _)
  have e2 : s2 = s1 := by rw [hs1] at hs2; cases hs2; rfl
  have e3 : s3 = s1 := by rw [hs1] at hs3; cases hs3; rfl
  have e4 : s4 = s1 := by rw [hs1] at hs4; cases hs4; rfl
  subst e2 e3 e4
  have hnewlog : s4.log = new := by rw [hlog]; simp [loop_entry]
  rw [loop_entry_need] at hval
  refine ⟨_, s4.samples_out, op_poll_of_loop ticks_to_secs rng op q w k buf s4 hs1, rfl, rfl,
    hrep rfl, ?_, ?_, ?_, ?_⟩
  · show written_slots s4.log = _
    rw [hw]
    simp [loop_entry, written_slots, taken]
  · intro it hit
    have hit' : it ∈ taken s4.log := hit
    simp only [taken, List.mem_filter] at hit'
    obtain ⟨_, _, t, ht1, ht2⟩ := hnew it (by rw [← hnewlog]; exact hit'.1) hit'.2
    exact ⟨t, ht1, ht2⟩
  · intro j hj0 hj
    obtain ⟨_, t, ht1, ht2⟩ := hval j.toNat (by omega)
    have ej : ((j.toNat : Nat) : Int) = j := by omega
    rw [ej] at ht2
    exact ⟨t, List.getElem?_mem ht1, ht2⟩
  · intro j hj
    exact hframe j hj

/-- C1: called with non-null `samples_count_inout` (holding capacity `k`) and `samples_out`,
`op_poll` stores `min(n, k)` into `*samples_count_inout`; the buffer it returns is the caller's
buffer with exactly the stores of the log performed, these stores go to the subscripts
`0, ..., min(n,k)-1` (listed newest first), each of them once and to no other subscript, every
one of them is still in the returned buffer, so the slots `0 .. min(n,k)-1` hold converted
stored samples, and every slot at a subscript `≥ min(n,k)` (or below `0`) keeps its old content.
Here `n` is the stored sample count; the statement holds for every capacity, in particular
for every `k ≥ 0`, and for every sequence of `xrandom` results. -/
theorem op_poll_fills_prefix (ticks_to_secs : ticks_t → Secs) (rng : Nat → Int) (op : op_t)
    (q : Option Int) (w : Option Secs) (k : Int) (buf : Int → Secs) :
    ∃ r out, op_poll ticks_to_secs rng op ⟨q, w, some k, some buf⟩ = Except.ok r ∧
      r.mem.samples_count_inout = some (min op.stats.latency_samples.size k) ∧
      r.mem.samples_out = some out ∧
      out = apply_stores ticks_to_secs op.stats r.log buf ∧
      written_slots r.log
        = (List.range (min op.stats.latency_samples.size k).toNat).map Int.ofNat ∧
      (∀ j : Int, (written_slots r.log).count j
        = if 0 ≤ j ∧ j < min op.stats.latency_samples.size k then 1 else 0) ∧
      (∀ it ∈ taken r.log, ∃ t, op.stats.latency_samples.read it.stored_index = some t ∧
        out it.output_index = ticks_to_secs t) ∧
      (∀ j : Int, 0 ≤ j → j < min op.stats.latency_samples.size k →
        ∃ t ∈ op.stats.latency_samples.samples, out j = ticks_to_secs t) ∧
      (∀ j : Int, j < 0 ∨ min op.stats.latency_samples.size k ≤ j → out j = buf j) := by
  obtain ⟨r, out, h1, h2, h3, h4, h5, h6, h7, h8⟩ :=
    op_poll_stores ticks_to_secs rng op q w k buf
  refine ⟨r, out, h1, h2, h3, h4, h5, ?_, h6, h7, h8⟩
  intro j
  rw [h5, count_range_cast]
  have hn := size_nonneg op.stats
  by_cases hk : 0 ≤ k
  · have : (((min op.stats.latency_samples.size k).toNat : Nat) : Int)
        = min op.stats.latency_samples.size k := by omega
    rw [this]
  · have a1 : ¬ (0 ≤ j ∧ j < (((min op.stats.latency_samples.size k).toNat : Nat) : Int)) := by
      omega
    have a2 : ¬ (0 ≤ j ∧ j < min op.stats.latency_samples.size k) := by omega
    rw [if_neg a1, if_neg a2]

/-- C2: the samples `op_poll` writes are recorded values chosen without replacement: there is a
map `f` from output slots to stored positions, strictly increasing on the `min(n,k)` slots, with
`samples_out[j] = ticks_to_secs(latency_samples.samples[f j])`; the stored positions delivered
are exactly `f 0, f 1, ...` (newest first), none twice, and the output read in slot order is a
sublist of the converted stored samples.  This holds for every stored sample list, capacity and
sequence of `xrandom` results. -/
theorem op_poll_delivers_recorded (ticks_to_secs : ticks_t → Secs) (rng : Nat → Int) (op : op_t)
    (q : Option Int) (w : Option Secs) (k : Int) (buf : Int → Secs) :
    ∃ r out, op_poll ticks_to_secs rng op ⟨q, w, some k, some buf⟩ = Except.ok r ∧
      r.mem.samples_out = some out ∧
      (∃ f : Nat → Nat,
        (∀ a b, a < b → b < (min op.stats.latency_samples.size k).toNat → f a < f b) ∧
        (∀ j, j < (min op.stats.latency_samples.size k).toNat →
          ∃ t, op.stats.latency_samples.samples[f j]? = some t ∧
            out (j : Int) = ticks_to_secs t) ∧
        delivered_positions r.log
          = (List.range (min op.stats.latency_samples.size k).toNat).map
              (fun j => (f j : Int))) ∧
      (delivered_positions r.log).Nodup ∧
      List.Sublist
        ((List.range (min op.stats.latency_samples.size k).toNat).map
          (fun j : Nat => out (j : Int)))
        (op.stats.latency_samples.samples.map ticks_to_secs) := by
  obtain ⟨s1, hs1, _, _, f, hmono, hval, hdel⟩ := poll_loop_delivers ticks_to_secs op.stats rng
    op.stats.latency_samples.size.toNat (loop_entry op.stats k buf) (size_nonneg _)
    (min_le_left _ _) (le_refl _) (le_refl _)
  obtain ⟨s2, hs2, _, _, hsub⟩ := poll_loop_sublist ticks_to_secs op.stats rng
    op.stats.latency_samples.size.toNat (loop_entry op.stats k buf) (size_nonneg _)
    (min_le_left _ _) (le_refl _) (le_refl _)
  have e : s2 = s1 := by
    rw [hs1] at hs2
    cases hs2
    rfl
  subst e
  rw [loop_entry_need] at hmono hval hdel hsub
  rw [loop_entry_have] at hsub
  have hdel' : delivered_positions s2.log
      = (List.range (min op.stats.latency_samples.size k).toNat).map (fun j => (f j : Int)) := by
    rw [hdel]
    simp [loop_entry, delivered_positions, taken]
  refine ⟨_, s2.samples_out, op_poll_of_loop ticks_to_secs rng op q w k buf s2 hs1, rfl,
    ⟨f, hmono, fun j hj => (hval j hj).2, hdel'⟩, ?_, ?_⟩
  · show (delivered_positions s2.log).Nodup
    rw [hdel']
    refine List.Nodup.map_on ?_ (List.nodup_range _)
    intro x hx y hy hxy
    have hx' := List.mem_range.mp hx
    have hy' := List.mem_range.mp hy
    have hxy' : f x = f y := by exact_mod_cast hxy
    rcases Nat.lt_trichotomy x y with h | h | h
    · have := hmono x y h hy'
      omega
    · exact h
    · have := hmono y x h hx'
      omega
  · have : op.stats.latency_samples.samples.take op.stats.latency_samples.size.toNat
        = op.stats.latency_samples.samples := by
      apply List.take_of_length_le
      simp [reservoir_sample_t.size]
    rw [this] at hsub
    exact hsub

/-- C3: when the capacity `k` is at least the stored sample count `n`, `op_poll` returns exactly
the stored samples: the reported count is `n`, `samples_out[i] = ticks_to_secs(samples[i])` for
every stored position `i`, no `xrandom` call is made, and every sequence of `xrandom` results
gives the same result. -/
theorem op_poll_all_samples (ticks_to_secs : ticks_t → Secs) (rng : Nat → Int) (op : op_t)
    (q : Option Int) (w : Option Secs) (k : Int) (buf : Int → Secs)
    (hk : op.stats.latency_samples.size ≤ k) :
    ∃ r out, op_poll ticks_to_secs rng op ⟨q, w, some k, some buf⟩ = Except.ok r ∧
      r.mem.samples_count_inout = some op.stats.latency_samples.size ∧
      r.mem.samples_out = some out ∧
      (∀ (i : Nat) (t : ticks_t), op.stats.latency_samples.samples[i]? = some t →
        out (i : Int) = ticks_to_secs t) ∧
      r.rolls = 0 ∧
      ∀ rng' : Nat → Int,
        op_poll ticks_to_secs rng' op ⟨q, w, some k, some buf⟩ = Except.ok r := by
  have hmin : min op.stats.latency_samples.size k = op.stats.latency_samples.size :=
    min_eq_left hk
  have hfull : (loop_entry op.stats k buf).samples_we_need
      = (loop_entry op.stats k buf).samples_we_have := by
    rw [loop_entry_need, loop_entry_have, hmin]
  obtain ⟨s1, hs1, _, _, hvals⟩ := poll_loop_full_values ticks_to_secs op.stats rng
    op.stats.latency_samples.size.toNat (loop_entry op.stats k buf) (size_nonneg _)
    (min_le_left _ _) (le_refl _) (le_refl _)
  have hrolls := (poll_loop_full ticks_to_secs op.stats rng rng
    op.stats.latency_samples.size.toNat (loop_entry op.stats k buf) hfull).2 s1 hs1
  refine ⟨_, s1.samples_out, op_poll_of_loop ticks_to_secs rng op q w k buf s1 hs1, ?_, rfl,
    ?_, hrolls, ?_⟩
  · show some (min op.stats.latency_samples.size k) = _
    rw [hmin]
  · intro i t hit
    refine hvals hfull i t ?_ hit
    rw [loop_entry_have]
    have : i < op.stats.latency_samples.samples.length := by
      by_contra hc
      rw [List.getElem?_eq_none (by omega)] at hit
      cases hit
    simp only [reservoir_sample_t.size]
    omega
  · intro rng'
    have h := (poll_loop_full ticks_to_secs op.stats rng rng'
      op.stats.latency_samples.size.toNat (loop_entry op.stats k buf) hfull).1
    rw [hs1] at h
    exact op_poll_of_loop ticks_to_secs rng' op q w k buf s1 h.symm

/-- Instance of C3 on `example_op` with capacity `7` for its four stored samples. -/
theorem op_poll_all_samples_witness :
    example_op.stats.latency_samples.size ≤ 7 ∧
    ∃ r out, op_poll example_ticks_to_secs example_rng example_op
        ⟨none, none, some 7, some example_buf⟩ = Except.ok r ∧
      r.mem.samples_count_inout = some example_op.stats.latency_samples.size ∧
      r.mem.samples_out = some out ∧
      (∀ (i : Nat) (t : ticks_t), example_op.stats.latency_samples.samples[i]? = some t →
        out (i : Int) = example_ticks_to_secs t) ∧
      r.rolls = 0 ∧
      ∀ rng' : Nat → Int,
        op_poll example_ticks_to_secs rng' example_op
          ⟨none, none, some 7, some example_buf⟩ = Except.ok r :=
  ⟨by decide, op_poll_all_samples example_ticks_to_secs example_rng example_op none none 7
    example_buf (by decide)⟩

/-- On a run of `op_poll`, stored position `i` is in the output exactly when the log of the loop
has delivered it: the slot the delivering iteration stored to holds the converted sample. -/
theorem in_output_eq_delivered [DecidableEq Secs] (ticks_to_secs : ticks_t → Secs)
    (rng : Nat → Int) (op : op_t) (k : Int) (buf : Int → Secs) (i : Int)
    (hi0 : 0 ≤ i) (hi : i < op.stats.latency_samples.size) :
    (if in_output ticks_to_secs op.stats i
        (op_poll ticks_to_secs rng op ⟨none, none, some k, some buf⟩) = true
      then (1 : ℚ) else 0)
    = outcome_value (fun s => if delivered i s.log = true then 1 else 0)
        (poll_loop ticks_to_secs op.stats rng op.stats.latency_samples.size.toNat
          (loop_entry op.stats k buf)) := by
  obtain ⟨s1, hs1, _, _, new, hlog, hnew⟩ := poll_loop_stores ticks_to_secs op.stats rng
    op.stats.latency_samples.size.toNat (loop_entry op.stats k buf) (size_nonneg _)
    (min_le_left _ _) (le_refl _) (le_refl _)
  have hnewlog : s1.log = new := by rw [hlog]; simp [loop_entry]
  obtain ⟨t, _, hread⟩ := read_in_range op.stats i hi0 hi
  rw [op_poll_of_loop ticks_to_secs rng op none none k buf s1 hs1, hs1]
  simp only [outcome_value, in_output, hread]
  have hiff : ((taken s1.log).any (fun it =>
        decide (it.stored_index = i) && decide (s1.samples_out it.output_index = ticks_to_secs t))
      = true) ↔ delivered i s1.log = true := by
    simp only [List.any_eq_true, Bool.and_eq_true, decide_eq_true_eq, delivered,
      delivered_positions, List.mem_map]
    constructor
    · rintro ⟨it, hit, he, _⟩
      exact ⟨it, hit, he⟩
    · rintro ⟨it, hit, he⟩
      refine ⟨it, hit, he, ?_⟩
      have hit' := hit
      simp only [taken, List.mem_filter] at hit'
      obtain ⟨_, _, t', ht1, ht2⟩ := hnew it (by rw [← hnewlog]; exact hit'.1) hit'.2
      rw [he, hread] at ht1
      cases ht1
      exact ht2
  by_cases hd : delivered i s1.log = true
  · rw [if_pos (hiff.mpr hd), if_pos hd]
  · rw [if_neg (fun h => hd (hiff.mp h)), if_neg hd]

/-- C4: with every `xrandom(0, m)` call an independent uniform draw from `[0, m]`, for a stored
count `n ≥ 1` and a requested count `0 ≤ k ≤ n`, every stored position `i < n` is in the output
of `op_poll` with probability exactly `k / n`.  The probability is taken over the sequences of
`xrandom` results of the run, whose probabilities add up to `1`, and the event is read off the
result of `op_poll` run against the sequence: the log and the returned buffer. -/
theorem inclusion_probability_eq [DecidableEq Secs] (ticks_to_secs : ticks_t → Secs)
    (op : op_t) (k : Int) (buf : Int → Secs) (i : Int)
    (hn : 1 ≤ op.stats.latency_samples.size) (hk0 : 0 ≤ k)
    (hk : k ≤ op.stats.latency_samples.size)
    (hi0 : 0 ≤ i) (hi : i < op.stats.latency_samples.size) :
    inclusion_probability ticks_to_secs op k buf i
      = (k : ℚ) / (op.stats.latency_samples.size : ℚ) ∧
    ((xrandom_sequences ticks_to_secs op.stats op.stats.latency_samples.size.toNat
      (loop_entry op.stats k buf)).map (fun x => x.2)).sum = 1 := by
  have hneed : 0 ≤ (loop_entry op.stats k buf).samples_we_need := by
    rw [loop_entry_need]
    omega
  constructor
  · unfold inclusion_probability
    have hterm : ∀ x : List Int × ℚ,
        x.2 * (if in_output ticks_to_secs op.stats i
            (op_poll ticks_to_secs (results_from 0 x.1) op ⟨none, none, some k, some buf⟩) = true
          then (1 : ℚ) else 0)
        = x.2 * outcome_value (fun s => if delivered i s.log = true then 1 else 0)
            (poll_loop ticks_to_secs op.stats
              (results_from (loop_entry op.stats k buf).rolls x.1)
              op.stats.latency_samples.size.toNat (loop_entry op.stats k buf)) := by
      intro x
      rw [in_output_eq_delivered ticks_to_secs (results_from 0 x.1) op k buf i hi0 hi]
      rfl
    simp only [hterm]
    rw [xrandom_sequences_expect,
      poll_loop_expect_delivered ticks_to_secs op.stats i op.stats.latency_samples.size.toNat
        (loop_entry op.stats k buf) hneed (min_le_left _ _) (le_refl _) (le_refl _)]
    have hd : ¬ delivered i (loop_entry op.stats k buf).log = true := by
      simp [loop_entry, delivered, delivered_positions, taken]
    rw [if_neg hd, loop_entry_have, loop_entry_need, if_pos ⟨hi0, hi⟩, min_eq_right hk]
  · have hterm : ∀ x : List Int × ℚ,
        x.2 = x.2 * outcome_value (fun _ => (1 : ℚ))
            (poll_loop ticks_to_secs op.stats
              (results_from (loop_entry op.stats k buf).rolls x.1)
              op.stats.latency_samples.size.toNat (loop_entry op.stats k buf)) := by
      intro x
      obtain ⟨s1, hs1, _⟩ := poll_loop_log ticks_to_secs op.stats
        (results_from (loop_entry op.stats k buf).rolls x.1)
        op.stats.latency_samples.size.toNat (loop_entry op.stats k buf) (size_nonneg _)
        (min_le_left _ _) (le_refl _) (le_refl _)
      rw [hs1]
      simp [outcome_value]
    rw [List.map_congr_left (fun x _ => hterm x), xrandom_sequences_expect]
    exact poll_loop_expect_one ticks_to_secs op.stats op.stats.latency_samples.size.toNat
      (loop_entry op.stats k buf) hneed (min_le_left _ _) (le_refl _) (le_refl _)

/-- Instance of C4: three of the four samples of `example_op` are requested, position `1`. -/
theorem inclusion_probability_eq_witness :
    (1 ≤ example_op.stats.latency_samples.size ∧ (0 : Int) ≤ 3 ∧
      3 ≤ example_op.stats.latency_samples.size ∧ (0 : Int) ≤ 1 ∧
      1 < example_op.stats.latency_samples.size) ∧
    inclusion_probability example_ticks_to_secs example_op 3 example_buf 1
      = ((3 : Int) : ℚ) / (example_op.stats.latency_samples.size : ℚ) ∧
    ((xrandom_sequences example_ticks_to_secs example_op.stats
      example_op.stats.latency_samples.size.toNat
      (loop_entry example_op.stats 3 example_buf)).map (fun x => x.2)).sum = 1 :=
  ⟨by decide, inclusion_probability_eq example_ticks_to_secs example_op 3 example_buf 1
    (by decide) (by decide) (by decide) (by decide) (by decide)⟩

/-- Every call of `op_poll` returns; it returns the operation it was given, the two scalar
outputs are the stored query count and the converted worst latency, and each logged iteration ran
with `0 < samples_we_need ≤ samples_we_have`. -/
theorem op_poll_returns (ticks_to_secs : ticks_t → Secs) (rng : Nat → Int) (op : op_t)
    (a : poll_args Secs) :
    ∃ r, op_poll ticks_to_secs rng op a = Except.ok r ∧ r.op = op ∧
      r.mem.queries_out = a.queries_out.map (fun _ => op.stats.queries) ∧
      r.mem.worstlatency_out
        = a.worstlatency_out.map (fun _ => ticks_to_secs op.stats.worst_latency) ∧
      ∀ it ∈ r.log, 0 < it.samples_we_need ∧ it.samples_we_need ≤ it.samples_we_have := by
  obtain ⟨q, w, c, b⟩ := a
  cases c with
  | none =>
    exact ⟨_, op_poll_no_samples ticks_to_secs rng op _ (Or.inl rfl), rfl, rfl, rfl,
      fun it hit => by cases hit⟩
  | some k =>
    cases b with
    | none =>
      exact ⟨_, op_poll_no_samples ticks_to_secs rng op _ (Or.inr rfl), rfl, rfl, rfl,
        fun it hit => by cases hit⟩
    | some buf =>
      obtain ⟨s1, hs1, _, new, hlog, _, _, _, hits⟩ := poll_loop_log ticks_to_secs op.stats rng
        op.stats.latency_samples.size.toNat (loop_entry op.stats k buf) (size_nonneg _)
        (min_le_left _ _) (le_refl _) (le_refl _)
      refine ⟨_, op_poll_of_loop ticks_to_secs rng op q w k buf s1 hs1, rfl, rfl, rfl, ?_⟩
      intro it hit
      have hit' : it ∈ new := by
        have : s1.log = new := by rw [hlog]; simp [loop_entry]
        rw [← this]
        exact hit
      exact ⟨(hits it hit').1, (hits it hit').2.1⟩

/-- C5 (as stated) fails: with three stored samples and the input capacity `-1`, `op_poll`
reports `-1` through `*samples_count_inout` although it wrote no sample, and the number of
samples written, `0`, is not at most the input capacity. -/
theorem op_poll_negative_capacity :
    ∃ r, op_poll example_ticks_to_secs example_rng
        ⟨⟨3, 30, ⟨[10, 20, 30]⟩⟩, true⟩ ⟨none, none, some (-1), some example_buf⟩
          = Except.ok r ∧
      r.mem.samples_count_inout = some (-1) ∧
      (written_slots r.log).length = 0 ∧
      r.mem.samples_count_inout ≠ some ((written_slots r.log).length : Int) ∧
      ¬ ((written_slots r.log).length : Int) ≤ -1 :=
  ⟨_, rfl, by decide, by decide, by decide, by decide⟩

/-- C5 (amended): for every input capacity `k ≥ 0` passed in `*samples_count_inout` (with
non-null `samples_out`) and every stored sample count, the count `c` that `op_poll` reports back
through `*samples_count_inout` equals the number of samples it wrote into `samples_out`, and that
number is at most `k`: the returned buffer is the caller's buffer with the logged stores
performed, there are `c` of them, they fill the slots `0 .. c-1` with converted stored samples,
and no other slot is changed. -/
theorem op_poll_count_is_written (ticks_to_secs : ticks_t → Secs) (rng : Nat → Int) (op : op_t)
    (q : Option Int) (w : Option Secs) (k : Int) (buf : Int → Secs) (hk : 0 ≤ k) :
    ∃ r out c, op_poll ticks_to_secs rng op ⟨q, w, some k, some buf⟩ = Except.ok r ∧
      r.mem.samples_count_inout = some c ∧
      r.mem.samples_out = some out ∧
      out = apply_stores ticks_to_secs op.stats r.log buf ∧
      c = ((written_slots r.log).length : Int) ∧
      (∀ j : Int, (written_slots r.log).count j = if 0 ≤ j ∧ j < c then 1 else 0) ∧
      (∀ j : Int, 0 ≤ j → j < c →
        ∃ t ∈ op.stats.latency_samples.samples, out j = ticks_to_secs t) ∧
      (∀ j : Int, j < 0 ∨ c ≤ j → out j = buf j) ∧
      c ≤ k := by
  obtain ⟨r, out, h1, h2, h3, h4, h5, _, h7, h8⟩ :=
    op_poll_stores ticks_to_secs rng op q w k buf
  have hn := size_nonneg op.stats
  have hcast : (((min op.stats.latency_samples.size k).toNat : Nat) : Int)
      = min op.stats.latency_samples.size k := by omega
  refine ⟨r, out, min op.stats.latency_samples.size k, h1, h2, h3, h4, ?_, ?_, h7, h8,
    min_le_right _ _⟩
  · rw [h5]
    simp only [List.length_map, List.length_range]
    exact hcast.symm
  · intro j
    rw [h5, count_range_cast, hcast]

/-- Instance of C5 (amended) on `example_op` with capacity `2`. -/
theorem op_poll_count_is_written_witness :
    (0 : Int) ≤ 2 ∧
    ∃ r out c, op_poll example_ticks_to_secs example_rng example_op
        ⟨none, none, some 2, some example_buf⟩ = Except.ok r ∧
      r.mem.samples_count_inout = some c ∧
      r.mem.samples_out = some out ∧
      out = apply_stores example_ticks_to_secs example_op.stats r.log example_buf ∧
      c = ((written_slots r.log).length : Int) ∧
      (∀ j : Int, (written_slots r.log).count j = if 0 ≤ j ∧ j < c then 1 else 0) ∧
      (∀ j : Int, 0 ≤ j → j < c →
        ∃ t ∈ example_op.stats.latency_samples.samples, out j = example_ticks_to_secs t) ∧
      (∀ j : Int, j < 0 ∨ c ≤ j → out j = example_buf j) ∧
      c ≤ 2 :=
  ⟨by decide, op_poll_count_is_written example_ticks_to_secs example_rng example_op none none 2
    example_buf (by decide)⟩

theorem int_memory_store_stats (m : int_memory) (p : int_ptr) (v : Int) :
    (m.store p v).op.stats.latency_samples = m.op.stats.latency_samples ∧
    (m.store p v).op.stats.worst_latency = m.op.stats.worst_latency ∧
    (m.store p v).op.stats_spinlock = m.op.stats_spinlock := by
  cases p <;> exact ⟨rfl, rfl, rfl⟩

theorem int_memory_store_op (m : int_memory) (p : int_ptr) (v : Int)
    (h : p ≠ int_ptr.stats_queries) : (m.store p v).op = m.op := by
  cases p with
  | null => rfl
  | caller cell => rfl
  | stats_queries => exact absurd rfl h

theorem int_memory_store_queries_self (m : int_memory) (p : int_ptr) :
    (m.store p m.op.stats.queries).op = m.op := by
  cases p <;> rfl

/-- The loop only reads the stored samples of the statistics. -/
theorem loop_body_samples (ticks_to_secs : ticks_t → Secs) (stats stats' : query_stats_t)
    (h : stats.latency_samples = stats'.latency_samples) (roll : Int) (s : poll_loop_t Secs) :
    loop_body ticks_to_secs stats roll s = loop_body ticks_to_secs stats' roll s := by
  simp [loop_body, h]

theorem poll_loop_samples (ticks_to_secs : ticks_t → Secs) (stats stats' : query_stats_t)
    (h : stats.latency_samples = stats'.latency_samples) (rng : Nat → Int) (fuel : Nat) :
    ∀ s : poll_loop_t Secs,
      poll_loop ticks_to_secs stats rng fuel s = poll_loop ticks_to_secs stats' rng fuel s := by
  induction fuel with
  | zero => intro s; simp [poll_loop]
  | succ fuel ih =>
    intro s
    simp only [poll_loop, loop_body_samples ticks_to_secs stats stats' h]
    split
    · split
      · exact ih _
      · rfl
    · rfl

theorem loop_entry_samples (stats stats' : query_stats_t)
    (h : stats.latency_samples = stats'.latency_samples) (k : Int) (buf : Int → Secs) :
    loop_entry stats k buf = loop_entry stats' k buf := by
  simp [loop_entry, h]

/-- Every call of `op_poll_ptr` returns, and the memory it leaves is the memory it was given
after the store through `queries_out` (line 38) and the store through `samples_count_inout`
(line 47), each made when the code makes it. -/
theorem op_poll_ptr_returns (ticks_to_secs : ticks_t → Secs) (rng : Nat → Int) (m : int_memory)
    (q : int_ptr) (w : Option Secs) (c : int_ptr) (b : Option (Int → Secs)) :
    ∃ r, op_poll_ptr ticks_to_secs rng m q w c b = Except.ok r ∧
      r.worstlatency_out = w.map (fun _ => ticks_to_secs m.op.stats.worst_latency) ∧
      r.mem =
        if b.isSome = true ∧ c ≠ int_ptr.null then
          ((if q = int_ptr.null then m else m.store q m.op.stats.queries).store c
            (min m.op.stats.latency_samples.size
              ((if q = int_ptr.null then m else m.store q m.op.stats.queries).load c)))
        else (if q = int_ptr.null then m else m.store q m.op.stats.queries) := by
  have hm1 : (if q = int_ptr.null then m else m.store q m.op.stats.queries).op.stats.latency_samples
      = m.op.stats.latency_samples ∧
      (if q = int_ptr.null then m else m.store q m.op.stats.queries).op.stats.worst_latency
      = m.op.stats.worst_latency := by
    split
    · exact ⟨rfl, rfl⟩
    · exact ⟨(int_memory_store_stats m q _).1, (int_memory_store_stats m q _).2.1⟩
  generalize hm1def : (if q = int_ptr.null then m else m.store q m.op.stats.queries) = m1
    at hm1
  obtain ⟨hs, hw⟩ := hm1
  cases b with
  | none =>
    refine ⟨⟨m1, w.map (fun _ => ticks_to_secs m1.op.stats.worst_latency), none, 0, []⟩,
      ?_, ?_, ?_⟩
    · simp only [op_poll_ptr, hm1def]
    · simp only [hw]
    · simp
  | some buf =>
    by_cases hc : c = int_ptr.null
    · refine ⟨⟨m1, w.map (fun _ => ticks_to_secs m1.op.stats.worst_latency), some buf, 0, []⟩,
        ?_, ?_, ?_⟩
      · simp only [op_poll_ptr, hm1def, hc, if_true]
      · simp only [hw]
      · simp [hc]
    · have hs2 : (m1.store c
            (loop_entry m1.op.stats (m1.load c) buf).samples_we_need).op.stats.latency_samples
          = m1.op.stats.latency_samples := (int_memory_store_stats m1 c _).1
      obtain ⟨s1, hs1, _⟩ := poll_loop_log ticks_to_secs m1.op.stats rng
        m1.op.stats.latency_samples.size.toNat (loop_entry m1.op.stats (m1.load c) buf)
        (size_nonneg _) (min_le_left _ _) (le_refl _) (le_refl _)
      rw [← poll_loop_samples ticks_to_secs _ _ hs2] at hs1
      refine ⟨⟨m1.store c (loop_entry m1.op.stats (m1.load c) buf).samples_we_need,
        w.map (fun _ => ticks_to_secs m1.op.stats.worst_latency), some s1.samples_out,
        s1.rolls, s1.log⟩, ?_, ?_, ?_⟩
      · simp only [op_poll_ptr, hm1def, hc, if_false, hs1]
      · simp only [hw]
      · simp only [Option.isSome_some, true_and, ne_eq, hc, not_false_eq_true, if_true,
          loop_entry_need, hs]

/-- The two embeddings agree: with `queries_out` and `samples_count_inout` pointing at two
different caller cells, `op_poll_ptr` returns what `op_poll` returns on the contents of the
cells, stored back into the cells, and leaves the operation as it is. -/
theorem op_poll_ptr_caller (ticks_to_secs : ticks_t → Secs) (rng : Nat → Int) (op : op_t)
    (cells : Nat → Int) (a b : Nat) (w : Option Secs) (buf : Int → Secs) (hab : a ≠ b) :
    ∃ r out count,
      op_poll ticks_to_secs rng op ⟨some (cells a), w, some (cells b), some buf⟩ = Except.ok r ∧
      r.mem.queries_out = some op.stats.queries ∧
      r.mem.samples_count_inout = some count ∧
      r.mem.samples_out = some out ∧
      op_poll_ptr ticks_to_secs rng ⟨op, cells⟩ (int_ptr.caller a) w (int_ptr.caller b)
          (some buf)
        = Except.ok
          { mem := ⟨op, Function.update (Function.update cells a op.stats.queries) b count⟩
            worstlatency_out := r.mem.worstlatency_out
            samples_out := some out
            rolls := r.rolls
            log := r.log } := by
  obtain ⟨s1, hs1, _⟩ := poll_loop_log ticks_to_secs op.stats rng
    op.stats.latency_samples.size.toNat (loop_entry op.stats (cells b) buf) (size_nonneg _)
    (min_le_left _ _) (le_refl _) (le_refl _)
  refine ⟨_, s1.samples_out, min op.stats.latency_samples.size (cells b),
    op_poll_of_loop ticks_to_secs rng op (some (cells a)) w (cells b) buf s1 hs1, rfl, rfl, rfl,
    ?_⟩
  have hba : b ≠ a := fun h => hab h.symm
  have hload : (Function.update cells a op.stats.queries) b = cells b := by
    simp [Function.update, hba]
  simp only [op_poll_ptr, int_memory.store, int_memory.load, hload, hs1, reduceCtorEq, if_false]
  rfl

/-- C6 (as stated) fails: `samples_count_inout` may point at `op->stats.queries`.  Polling
`example_op` (query count `9`, four stored samples) with that argument stores `min(4, 9) = 4`
through the pointer at line 47, so the statistics after the call differ from the statistics
before it. -/
theorem op_poll_ptr_aliased_count :
    ∃ r, op_poll_ptr example_ticks_to_secs example_rng example_memory int_ptr.null none
        int_ptr.stats_queries (some example_buf) = Except.ok r ∧
      example_memory.op.stats.queries = 9 ∧
      r.mem.op.stats.queries = 4 ∧
      r.mem.op.stats ≠ example_memory.op.stats :=
  ⟨_, rfl, by decide, by decide, by decide⟩

/-- C6 (amended): when `samples_count_inout` does not point into the operation's statistics,
`op_poll` does not modify them: for every statistics state, every other argument (null or not,
`queries_out` even pointing at `op->stats.queries`) and every sequence of `xrandom` results the
operation after the call equals the operation before it; so two consecutive polls with no
recording in between, `queries_out` pointing at a caller cell `a` of its own, report the same
query count and the same worst latency. -/
theorem op_poll_ptr_keeps_stats (ticks_to_secs : ticks_t → Secs) (rng rng2 : Nat → Int)
    (m : int_memory) (q : int_ptr) (w : Option Secs) (c : int_ptr) (b : Option (Int → Secs))
    (a : Nat) (w1 w2 : Secs) (b1 b2 : Option (Int → Secs))
    (hc : c ≠ int_ptr.stats_queries) (ha : c ≠ int_ptr.caller a) :
    (∃ r, op_poll_ptr ticks_to_secs rng m q w c b = Except.ok r ∧ r.mem.op = m.op ∧
      r.mem.op.stats = m.op.stats) ∧
    (∃ r1 r2,
      op_poll_ptr ticks_to_secs rng m (int_ptr.caller a) (some w1) c b1 = Except.ok r1 ∧
      op_poll_ptr ticks_to_secs rng2 r1.mem (int_ptr.caller a) (some w2) c b2 = Except.ok r2 ∧
      r1.mem.op = m.op ∧ r2.mem.op = m.op ∧
      r1.mem.cells a = m.op.stats.queries ∧
      r2.mem.cells a = r1.mem.cells a ∧
      r1.worstlatency_out = some (ticks_to_secs m.op.stats.worst_latency) ∧
      r2.worstlatency_out = r1.worstlatency_out) := by
  have hop : ∀ (rng' : Nat → Int) (m' : int_memory) (q' : int_ptr) (w' : Option Secs)
      (b' : Option (Int → Secs)),
      ∃ r, op_poll_ptr ticks_to_secs rng' m' q' w' c b' = Except.ok r ∧ r.mem.op = m'.op ∧
        r.worstlatency_out = w'.map (fun _ => ticks_to_secs m'.op.stats.worst_latency) ∧
        ∀ a', q' = int_ptr.caller a' → c ≠ int_ptr.caller a' →
          r.mem.cells a' = m'.op.stats.queries := by
    intro rng' m' q' w' b'
    obtain ⟨r, hr, hw, hmem⟩ := op_poll_ptr_returns ticks_to_secs rng' m' q' w' c b'
    have h1 : (if q' = int_ptr.null then m' else m'.store q' m'.op.stats.queries).op = m'.op := by
      split
      · rfl
      · exact int_memory_store_queries_self m' q'
    refine ⟨r, hr, ?_, hw, ?_⟩
    · rw [hmem]
      split
      · rw [int_memory_store_op _ _ _ hc, h1]
      · exact h1
    · intro a' hq hca
      subst hq
      rw [hmem]
      have hstore : ∀ (m0 : int_memory) (v : Int), (m0.store c v).cells a' = m0.cells a' := by
        intro m0 v
        cases c with
        | null => rfl
        | stats_queries => rfl
        | caller cell =>
          have : a' ≠ cell := fun h => hca (by rw [h])
          simp [int_memory.store, Function.update, this]
      split
      · rw [hstore]
        simp [int_memory.store]
      · simp [int_memory.store]
  constructor
  · obtain ⟨r, hr, ho, _⟩ := hop rng m q w b
    exact ⟨r, hr, ho, by rw [ho]⟩
  · obtain ⟨r1, hr1, ho1, hw1, hq1⟩ := hop rng m (int_ptr.caller a) (some w1) b1
    obtain ⟨r2, hr2, ho2, hw2, hq2⟩ := hop rng2 r1.mem (int_ptr.caller a) (some w2) b2
    refine ⟨r1, r2, hr1, hr2, ho1, by rw [ho2, ho1], hq1 a rfl ha, ?_, ?_, ?_⟩
    · rw [hq2 a rfl ha, hq1 a rfl ha, ho1]
    · rw [hw1]; rfl
    · rw [hw2, hw1, ho1]; rfl

/-- Instance of C6 (amended): `example_op` is polled twice with `queries_out` at caller cell `0`
and `samples_count_inout` at caller cell `1`. -/
theorem op_poll_ptr_keeps_stats_witness :
    (int_ptr.caller 1 ≠ int_ptr.stats_queries ∧ int_ptr.caller 1 ≠ int_ptr.caller 0) ∧
    (∃ r, op_poll_ptr example_ticks_to_secs example_rng example_memory int_ptr.stats_queries
        none (int_ptr.caller 1) (some example_buf) = Except.ok r ∧
      r.mem.op = example_memory.op ∧ r.mem.op.stats = example_memory.op.stats) ∧
    (∃ r1 r2,
      op_poll_ptr example_ticks_to_secs example_rng example_memory (int_ptr.caller 0) (some 1)
        (int_ptr.caller 1) (some example_buf) = Except.ok r1 ∧
      op_poll_ptr example_ticks_to_secs example_rng r1.mem (int_ptr.caller 0) (some 2)
        (int_ptr.caller 1) none = Except.ok r2 ∧
      r1.mem.op = example_memory.op ∧ r2.mem.op = example_memory.op ∧
      r1.mem.cells 0 = example_memory.op.stats.queries ∧
      r2.mem.cells 0 = r1.mem.cells 0 ∧
      r1.worstlatency_out
        = some (example_ticks_to_secs example_memory.op.stats.worst_latency) ∧
      r2.worstlatency_out = r1.worstlatency_out) :=
  ⟨by decide, op_poll_ptr_keeps_stats example_ticks_to_secs example_rng example_rng
    example_memory int_ptr.stats_queries none (int_ptr.caller 1) (some example_buf) 0 1 2
    (some example_buf) none (by decide) (by decide)⟩

/-- C7: for every prior statistics state `op_reset` sets the statistics to the initial zero state
and leaves the lock state unchanged; an `op_poll` right after it reports a query count of `0`,
the conversion of a worst latency of `0` ticks, which is `0` seconds as soon as `ticks_to_secs`
maps `0` to `0`, and for every capacity `k ≥ 0` a returned sample count of `0`. -/
theorem op_reset_clears [Zero Secs] (ticks_to_secs : ticks_t → Secs) (rng : Nat → Int)
    (op : op_t) (q : Int) (w : Secs) (k : Int) (buf : Int → Secs)
    (hz : ticks_to_secs 0 = 0) (hk : 0 ≤ k) :
    (op_reset op).stats = query_stats_t.init ∧
    (op_reset op).stats_spinlock = op.stats_spinlock ∧
    ∃ r, op_poll ticks_to_secs rng (op_reset op) ⟨some q, some w, some k, some buf⟩
        = Except.ok r ∧
      r.mem.queries_out = some 0 ∧
      r.mem.worstlatency_out = some (ticks_to_secs 0) ∧
      r.mem.worstlatency_out = some 0 ∧
      r.mem.samples_count_inout = some 0 ∧
      r.log = [] ∧
      r.mem.samples_out = some buf := by
  refine ⟨rfl, rfl, ?_⟩
  have hloop : poll_loop ticks_to_secs (op_reset op).stats rng
      (op_reset op).stats.latency_samples.size.toNat (loop_entry (op_reset op).stats k buf)
      = Except.ok (loop_entry (op_reset op).stats k buf) := by
    apply poll_loop_exit
    rw [loop_entry_need]
    have : (op_reset op).stats.latency_samples.size = 0 := rfl
    rw [this]
    have := min_le_left (0 : Int) k
    omega
  have hmin : min (op_reset op).stats.latency_samples.size k = 0 := by
    have : (op_reset op).stats.latency_samples.size = 0 := rfl
    rw [this]
    exact min_eq_left hk
  refine ⟨_, op_poll_of_loop ticks_to_secs rng (op_reset op) (some q) (some w) k buf _ hloop,
    rfl, rfl, ?_, ?_, rfl, rfl⟩
  · show some (ticks_to_secs 0) = some 0
    rw [hz]
  · show some (min (op_reset op).stats.latency_samples.size k) = some 0
    rw [hmin]

/-- Instance of C7: `example_op` is reset and polled with capacity `3`. -/
theorem op_reset_clears_witness :
    (example_ticks_to_secs 0 = 0 ∧ (0 : Int) ≤ 3) ∧
    (op_reset example_op).stats = query_stats_t.init ∧
    (op_reset example_op).stats_spinlock = example_op.stats_spinlock ∧
    ∃ r, op_poll example_ticks_to_secs example_rng (op_reset example_op)
        ⟨some 5, some 1, some 3, some example_buf⟩ = Except.ok r ∧
      r.mem.queries_out = some 0 ∧
      r.mem.worstlatency_out = some (example_ticks_to_secs 0) ∧
      r.mem.worstlatency_out = some 0 ∧
      r.mem.samples_count_inout = some 0 ∧
      r.log = [] ∧
      r.mem.samples_out = some example_buf :=
  ⟨⟨by simp [example_ticks_to_secs], by decide⟩,
    op_reset_clears example_ticks_to_secs example_rng example_op 5 1 3 example_buf
      (by simp [example_ticks_to_secs]) (by decide)⟩

theorem take_this_sample_die (h d roll : Int) (hlt : d < h) :
    take_this_sample h d roll = some (decide (roll < d)) := by
  have hne : ¬ h = d := by omega
  simp [take_this_sample, hne, hlt]

/-- C8: in an iteration of the loop with `0 < samples_we_need < samples_we_have` (and
`samples_we_have` within the stored samples, as in every iteration of `op_poll`), the die is
rolled, the test `xrandom(0, samples_we_have-1) < samples_we_need` holds for exactly
`samples_we_need` of the `samples_we_have` values of the inclusive range `[0, samples_we_have-1]`,
so the sample is taken with probability `need/have` under a uniform draw; when it is taken both
counters decrease by one, otherwise only `samples_we_have` decreases by one. -/
theorem loop_body_roll (ticks_to_secs : ticks_t → Secs) (stats : query_stats_t)
    (s : poll_loop_t Secs) (h0 : 0 < s.samples_we_need)
    (h1 : s.samples_we_need < s.samples_we_have)
    (h2 : s.samples_we_have ≤ stats.latency_samples.size) :
    rolls_die s.samples_we_have s.samples_we_need = true ∧
    (Finset.Icc (0 : Int) (s.samples_we_have - 1)).card = s.samples_we_have.toNat ∧
    ((Finset.Icc (0 : Int) (s.samples_we_have - 1)).filter (fun roll =>
      take_this_sample s.samples_we_have s.samples_we_need roll = some true)).card
        = s.samples_we_need.toNat ∧
    uniform_mean 0 (s.samples_we_have - 1) (fun roll =>
      if take_this_sample s.samples_we_have s.samples_we_need roll = some true then 1 else 0)
        = (s.samples_we_need : ℚ) / (s.samples_we_have : ℚ) ∧
    ∀ roll : Int,
      take_this_sample s.samples_we_have s.samples_we_need roll
        = some (decide (roll < s.samples_we_need)) ∧
      (roll < s.samples_we_need →
        ∃ s', loop_body ticks_to_secs stats roll s = Except.ok s' ∧
          s'.samples_we_have = s.samples_we_have - 1 ∧
          s'.samples_we_need = s.samples_we_need - 1) ∧
      (¬ roll < s.samples_we_need →
        ∃ s', loop_body ticks_to_secs stats roll s = Except.ok s' ∧
          s'.samples_we_have = s.samples_we_have - 1 ∧
          s'.samples_we_need = s.samples_we_need) := by
  have hne : ¬ s.samples_we_have = s.samples_we_need := by omega
  refine ⟨by simp [rolls_die, hne, h1], ?_, ?_, ?_, ?_⟩
  · rw [Int.card_Icc]
    congr 1
    ring
  · have : (Finset.Icc (0 : Int) (s.samples_we_have - 1)).filter (fun roll =>
        take_this_sample s.samples_we_have s.samples_we_need roll = some true)
        = Finset.Icc (0 : Int) (s.samples_we_need - 1) := by
      ext r
      simp only [Finset.mem_filter, Finset.mem_Icc, take_this_sample_die _ _ _ h1,
        Option.some.injEq, decide_eq_true_eq]
      omega
    rw [this, Int.card_Icc]
    congr 1
    ring
  · rw [uniform_mean_threshold s.samples_we_have s.samples_we_need (by omega) (by omega) _ 1 0]
    · ring
    · intro r _ hr
      simp [take_this_sample_die _ _ _ h1, hr]
    · intro r hr _
      have : ¬ r < s.samples_we_need := by omega
      simp [take_this_sample_die _ _ _ h1, this]
  · intro roll
    refine ⟨take_this_sample_die _ _ _ h1, ?_, ?_⟩
    · intro hr
      obtain ⟨t, _, hb⟩ := loop_body_take ticks_to_secs stats roll s h0 (by omega) h2 (Or.inr hr)
      exact ⟨_, hb, rfl, rfl⟩
    · intro hr
      exact ⟨_, loop_body_skip ticks_to_secs stats roll s h1 hr, rfl, rfl⟩

/-- Instance of C8 on `example_state` (four samples left, two needed) over `example_stats`. -/
theorem loop_body_roll_witness :
    (0 < example_state.samples_we_need ∧
      example_state.samples_we_need < example_state.samples_we_have ∧
      example_state.samples_we_have ≤ example_stats.latency_samples.size) ∧
    rolls_die example_state.samples_we_have example_state.samples_we_need = true ∧
    (Finset.Icc (0 : Int) (example_state.samples_we_have - 1)).card
      = example_state.samples_we_have.toNat ∧
    ((Finset.Icc (0 : Int) (example_state.samples_we_have - 1)).filter (fun roll =>
      take_this_sample example_state.samples_we_have example_state.samples_we_need roll
        = some true)).card = example_state.samples_we_need.toNat ∧
    uniform_mean 0 (example_state.samples_we_have - 1) (fun roll =>
      if take_this_sample example_state.samples_we_have example_state.samples_we_need roll
          = some true then 1 else 0)
        = (example_state.samples_we_need : ℚ) / (example_state.samples_we_have : ℚ) ∧
    ∀ roll : Int,
      take_this_sample example_state.samples_we_have example_state.samples_we_need roll
        = some (decide (roll < example_state.samples_we_need)) ∧
      (roll < example_state.samples_we_need →
        ∃ s', loop_body example_ticks_to_secs example_stats roll example_state = Except.ok s' ∧
          s'.samples_we_have = example_state.samples_we_have - 1 ∧
          s'.samples_we_need = example_state.samples_we_need - 1) ∧
      (¬ roll < example_state.samples_we_need →
        ∃ s', loop_body example_ticks_to_secs example_stats roll example_state = Except.ok s' ∧
          s'.samples_we_have = example_state.samples_we_have - 1 ∧
          s'.samples_we_need = example_state.samples_we_need) :=
  ⟨by decide, loop_body_roll example_ticks_to_secs example_stats example_state (by decide)
    (by decide) (by decide)⟩

/-- C9 (as stated) fails: no stored sample count, requested count, argument combination or
sequence of `xrandom` results makes `op_poll` read `take_this_sample` unassigned, and no run
has an iteration with `samples_we_have < samples_we_need` and `samples_we_need > 0`. -/
theorem op_poll_uninitialized_read_unreachable :
    ¬ ∃ (Secs : Type) (ticks_to_secs : ticks_t → Secs) (rng : Nat → Int) (op : op_t)
        (a : poll_args Secs),
      op_poll ticks_to_secs rng op a = Except.error fault_t.uninitialized_read ∨
      ∃ r, op_poll ticks_to_secs rng op a = Except.ok r ∧
        ∃ it ∈ r.log, it.samples_we_have < it.samples_we_need ∧ it.samples_we_need > 0 := by
  rintro ⟨Secs, ticks_to_secs, rng, op, a, h⟩
  obtain ⟨r, hr, _, _, _, hits⟩ := op_poll_returns ticks_to_secs rng op a
  rcases h with h | ⟨r', hr', it, hit, hlt, _⟩
  · rw [hr] at h
    cases h
  · rw [hr] at hr'
    cases hr'
    have := (hits it hit).2
    omega

/-- C9 (amended): for every stored sample count, requested count, argument combination and
sequence of `xrandom` results, `op_poll` returns, and every iteration of its loop runs with
`0 < samples_we_need ≤ samples_we_have`, so that one of the two branches of lines 52-58 assigns
`take_this_sample` before line 59 reads it, whatever the die shows. -/
theorem op_poll_take_this_sample_assigned (ticks_to_secs : ticks_t → Secs) (rng : Nat → Int)
    (op : op_t) (a : poll_args Secs) :
    ∃ r, op_poll ticks_to_secs rng op a = Except.ok r ∧
      ∀ it ∈ r.log, 0 < it.samples_we_need ∧ it.samples_we_need ≤ it.samples_we_have ∧
        ∀ roll : Int, ∃ b : Bool,
          take_this_sample it.samples_we_have it.samples_we_need roll = some b := by
  obtain ⟨r, hr, _, _, _, hits⟩ := op_poll_returns ticks_to_secs rng op a
  refine ⟨r, hr, fun it hit => ⟨(hits it hit).1, (hits it hit).2, fun roll => ?_⟩⟩
  have hle := (hits it hit).2
  by_cases he : it.samples_we_have = it.samples_we_need
  · exact ⟨true, by simp [take_this_sample, he]⟩
  · have hlt : it.samples_we_need < it.samples_we_have := by omega
    exact ⟨decide (roll < it.samples_we_need), take_this_sample_die _ _ _ hlt⟩

/-- C10: for every stored sample count `n`, every requested capacity (any integer) and every
sequence of `xrandom` results the loop of `op_poll` terminates after at most `n` iterations
(with `n` units of fuel or more it exits, with the same state), and in every iteration the
stored subscript (`samples_we_have` after the decrement) lies in `[0, n)` and, when the sample
is taken, the output subscript (`samples_we_need` after the decrement) lies in
`[0, min(n, k))`: no access to `latency_samples.samples` or `samples_out` is out of range. -/
theorem op_poll_terminates_in_range (ticks_to_secs : ticks_t → Secs) (rng : Nat → Int)
    (op : op_t) (q : Option Int) (w : Option Secs) (k : Int) (buf : Int → Secs) :
    ∃ r, op_poll ticks_to_secs rng op ⟨q, w, some k, some buf⟩ = Except.ok r ∧
      (r.log.length : Int) ≤ op.stats.latency_samples.size ∧
      (∀ it ∈ r.log,
        (0 ≤ it.stored_index ∧ it.stored_index < op.stats.latency_samples.size) ∧
        (0 ≤ it.output_index ∧ it.output_index < min op.stats.latency_samples.size k)) ∧
      ∀ fuel, op.stats.latency_samples.size.toNat ≤ fuel →
        ∃ s, poll_loop ticks_to_secs op.stats rng fuel (loop_entry op.stats k buf)
            = Except.ok s ∧
          poll_loop ticks_to_secs op.stats rng op.stats.latency_samples.size.toNat
            (loop_entry op.stats k buf) = Except.ok s ∧
          r.log = s.log ∧ r.mem.samples_out = some s.samples_out := by
  obtain ⟨s1, hs1, _, new, hlog, hlen, hh, _, hits⟩ := poll_loop_log ticks_to_secs op.stats rng
    op.stats.latency_samples.size.toNat (loop_entry op.stats k buf) (size_nonneg _)
    (min_le_left _ _) (le_refl _) (le_refl _)
  have hnew : s1.log = new := by rw [hlog]; simp [loop_entry]
  rw [loop_entry_have] at hlen
  refine ⟨_, op_poll_of_loop ticks_to_secs rng op q w k buf s1 hs1, ?_, ?_, ?_⟩
  · show (s1.log.length : Int) ≤ _
    rw [hnew]
    omega
  · intro it hit
    have hit' : it ∈ new := by
      rw [← hnew]
      exact hit
    obtain ⟨i1, i2, i3, i4⟩ := hits it hit'
    rw [loop_entry_have] at i3
    rw [loop_entry_need] at i4
    simp only [iteration_t.stored_index, iteration_t.output_index]
    omega
  · intro fuel hfuel
    exact ⟨s1, poll_loop_fuel_mono ticks_to_secs op.stats rng _ _ s1 fuel hfuel hs1, hs1, rfl,
      rfl⟩

end StressClient
